import Mathlib

/-!
Verification development for the dh-addons lottery clients.

The development shallowly embeds the core of the repository:

* the AES-128-CBC field cipher of `dhyeongeum720/dh_pension_720.py`
  (`_encrypt` / `_decrypt`), together with faithful executable models of the
  external primitives it composes: PBKDF2-HMAC-SHA256, AES-128, CBC chaining,
  PKCS#7 padding, hexadecimal and base64 codecs, UTF-8, and the
  percent-encoding performed by `urllib.parse.quote(raw, safe="")`;
* the three-phase purchase protocol of `DhPension720._async_buy` and the
  sub-service session bridge `DhPension720._ensure_session`;
* the login, circuit-breaker accounting and authenticated-request retry logic
  of `dhlotto45/dh_lottery_client.py` (`DhLotteryClient`).

Network responses are modelled as explicit environment values handed to the
embedded control flow; random values (salt, IV) become explicit parameters.
Bytes are natural numbers below 256, byte strings are `List Nat`, and text is
`List Char` (wrapped into `String` at the outermost interfaces).
-/

set_option maxRecDepth 10000

/-! ## Byte strings -/

/-- Byte strings are lists of naturals; a value is a valid byte string when
every entry is below 256. -/
def ValidBytes (bs : List Nat) : Prop := ∀ b ∈ bs, b < 256

instance : DecidablePred ValidBytes := fun bs =>
  inferInstanceAs (Decidable (∀ b ∈ bs, b < 256))

theorem validBytes_append {xs ys : List Nat} (hx : ValidBytes xs) (hy : ValidBytes ys) :
    ValidBytes (xs ++ ys) := by
  intro b hb
  rcases List.mem_append.mp hb with h | h
  · exact hx b h
  · exact hy b h

theorem validBytes_take {xs : List Nat} (hx : ValidBytes xs) (n : Nat) :
    ValidBytes (xs.take n) := fun b hb => hx b (List.mem_of_mem_take hb)

theorem validBytes_drop {xs : List Nat} (hx : ValidBytes xs) (n : Nat) :
    ValidBytes (xs.drop n) := fun b hb => hx b (List.mem_of_mem_drop hb)

/-! ## Hexadecimal codec

`bytes.hex()` in Python prints each byte as two lowercase hexadecimal digits;
`bytes.fromhex` parses two hexadecimal digits per byte (it also accepts
uppercase digits).  The inputs parsed by `_decrypt` are exact slices of
produced hex strings, so whitespace tolerance of `fromhex` is irrelevant and
is not modelled. -/

/-- Lowercase hexadecimal digit for a value below 16. -/
def hexDigitChar (n : Nat) : Char :=
  if n < 10 then Char.ofNat (48 + n) else Char.ofNat (87 + n)

/-- Two lowercase hex digits of a byte, most significant first. -/
def hexOfByte (b : Nat) : List Char := [hexDigitChar (b / 16), hexDigitChar (b % 16)]

/-- Lowercase hex rendering of a byte string, as produced by `bytes.hex()`. -/
def hexEncode (bs : List Nat) : List Char := bs.flatMap hexOfByte

/-- Value of one hexadecimal digit (either case), as accepted by
`bytes.fromhex`. -/
def hexDigitVal (c : Char) : Option Nat :=
  if 48 ≤ c.toNat ∧ c.toNat ≤ 57 then some (c.toNat - 48)
  else if 97 ≤ c.toNat ∧ c.toNat ≤ 102 then some (c.toNat - 87)
  else if 65 ≤ c.toNat ∧ c.toNat ≤ 70 then some (c.toNat - 55)
  else none

/-- Parse a hex string two digits at a time, as `bytes.fromhex` does; an odd
number of digits or a non-hex character fails. -/
def hexDecode : List Char → Option (List Nat)
  | [] => some []
  | [_] => none
  | c1 :: c2 :: rest =>
    match hexDigitVal c1, hexDigitVal c2, hexDecode rest with
    | some h, some l, some tl => some ((16 * h + l) :: tl)
    | _, _, _ => none

theorem hexDigitVal_hexDigitChar : ∀ n < 16, hexDigitVal (hexDigitChar n) = some n := by
  decide

theorem hexEncode_append (xs ys : List Nat) :
    hexEncode (xs ++ ys) = hexEncode xs ++ hexEncode ys := by
  simp [hexEncode]

theorem hexEncode_length (bs : List Nat) : (hexEncode bs).length = 2 * bs.length := by
  induction bs with
  | nil => rfl
  | cons b tl ih => simp [hexEncode, hexOfByte] at ih ⊢; omega

theorem hexDecode_hexEncode {bs : List Nat} (h : ValidBytes bs) :
    hexDecode (hexEncode bs) = some bs := by
  induction bs with
  | nil => rfl
  | cons b tl ih =>
    have hb : b < 256 := h b (List.mem_cons_self ..)
    have htl : hexDecode (hexEncode tl) = some tl :=
      ih (fun x hx => h x (List.mem_cons_of_mem _ hx))
    have hhi : b / 16 < 16 := by omega
    have hlo : b % 16 < 16 := by omega
    show hexDecode (hexDigitChar (b / 16) :: hexDigitChar (b % 16) :: hexEncode tl) = _
    rw [hexDecode, hexDigitVal_hexDigitChar _ hhi, hexDigitVal_hexDigitChar _ hlo, htl]
    have hb16 : 16 * (b / 16) + b % 16 = b := by omega
    simp only [hb16]

/-! ## Base64 codec

`base64.b64encode` produces the standard alphabet with `=` padding.
`base64.b64decode` (with its default `validate=False`) first discards every
character that is neither in the alphabet nor `=`, then requires the remaining
length to be a multiple of four with at most two trailing `=`; `_encrypt`
applies it to slices that contain only alphabet characters, `%` and trailing
padding, which this model reproduces. -/

/-- The standard base64 alphabet, index order. -/
def b64Alphabet : List Char :=
  "ABCDEFGHIJKLMNOPQRSTUVWXYZabcdefghijklmnopqrstuvwxyz0123456789+/".data

/-- Alphabet character of a sextet value below 64. -/
def b64Char (n : Nat) : Char := b64Alphabet.getD n 'A'

/-- Membership in the base64 alphabet. -/
def isB64Char (c : Char) : Bool := b64Alphabet.contains c

/-- Index of an alphabet character. -/
def b64Index (c : Char) : Nat := b64Alphabet.indexOf c

/-- Base64 rendering of a byte string, three bytes giving four characters,
with `=` padding on a final group of one or two bytes. -/
def b64encode : List Nat → List Char
  | [] => []
  | [b1] => [b64Char (b1 / 4), b64Char (b1 % 4 * 16), '=', '=']
  | [b1, b2] => [b64Char (b1 / 4), b64Char (b1 % 4 * 16 + b2 / 16), b64Char (b2 % 16 * 4), '=']
  | b1 :: b2 :: b3 :: rest =>
    b64Char (b1 / 4) :: b64Char (b1 % 4 * 16 + b2 / 16) ::
      b64Char (b2 % 16 * 4 + b3 / 64) :: b64Char (b3 % 64) :: b64encode rest

/-- Decode base64 data characters: full groups of four, and a final group of
three or two characters left by stripped padding; a single leftover character
is invalid. -/
def b64decodeData : List Char → Option (List Nat)
  | [] => some []
  | c1 :: c2 :: c3 :: c4 :: rest =>
    (b64decodeData rest).map (fun tl =>
      (b64Index c1 * 262144 + b64Index c2 * 4096 + b64Index c3 * 64 + b64Index c4) / 65536 ::
      (b64Index c1 * 262144 + b64Index c2 * 4096 + b64Index c3 * 64 + b64Index c4) / 256 % 256 ::
      (b64Index c1 * 262144 + b64Index c2 * 4096 + b64Index c3 * 64 + b64Index c4) % 256 :: tl)
  | [c1, c2, c3] =>
    some [(b64Index c1 * 4096 + b64Index c2 * 64 + b64Index c3) / 1024,
      (b64Index c1 * 4096 + b64Index c2 * 64 + b64Index c3) / 4 % 256]
  | [c1, c2] => some [(b64Index c1 * 64 + b64Index c2) / 16]
  | [_] => none

/-- Python-style lenient base64 decoding: drop foreign characters, demand a
length that is a multiple of four, with `=` only as at most two trailing
padding characters. -/
def b64decode (s : List Char) : Option (List Nat) :=
  let t := s.filter (fun c => isB64Char c || c == '=')
  let d := t.takeWhile (fun c => c ≠ '=')
  let p := t.length - d.length
  if t.length % 4 ≠ 0 then none
  else if p > 2 then none
  else if d ++ List.replicate p '=' ≠ t then none
  else b64decodeData d

theorem isB64Char_b64Char : ∀ n < 64, isB64Char (b64Char n) = true := by decide

theorem b64Char_ne_pad : ∀ n < 64, b64Char n ≠ '=' := by decide

theorem b64Index_b64Char : ∀ n < 64, b64Index (b64Char n) = n := by decide

theorem takeWhile_append_all {α : Type} {p : α → Bool} {l1 l2 : List α}
    (h : ∀ x ∈ l1, p x = true) :
    (l1 ++ l2).takeWhile p = l1 ++ l2.takeWhile p := by
  induction l1 with
  | nil => rfl
  | cons a tl ih =>
    have ha : p a = true := h a (List.mem_cons_self ..)
    simp only [List.cons_append, List.takeWhile_cons, ha, if_true]
    rw [ih (fun x hx => h x (List.mem_cons_of_mem _ hx))]

/-- Structure of base64 output: data characters followed by padding, with the
data decoding back to the input bytes. -/
theorem b64encode_structure {bs : List Nat} (h : ValidBytes bs) :
    ∃ d p, b64encode bs = d ++ List.replicate p '=' ∧
      (∀ c ∈ d, isB64Char c = true ∧ c ≠ '=') ∧ p ≤ 2 ∧
      d.length + p = (bs.length + 2) / 3 * 4 ∧ p = (3 - bs.length % 3) % 3 ∧
      b64decodeData d = some bs := by
  induction bs using b64encode.induct with
  | case1 =>
    exact ⟨[], 0, rfl, by simp, by omega, rfl, rfl, rfl⟩
  | case2 b1 =>
    have hb1 : b1 < 256 := h b1 (by simp)
    have h1 : b1 / 4 < 64 := by omega
    have h2 : b1 % 4 * 16 < 64 := by omega
    refine ⟨[b64Char (b1 / 4), b64Char (b1 % 4 * 16)], 2, rfl, ?_, by omega, by simp, by simp, ?_⟩
    · intro c hc
      simp only [List.mem_cons, List.not_mem_nil, or_false] at hc
      rcases hc with rfl | rfl <;>
        exact ⟨isB64Char_b64Char _ (by omega), b64Char_ne_pad _ (by omega)⟩
    · rw [b64decodeData, b64Index_b64Char _ h1, b64Index_b64Char _ h2]
      have e1 : (b1 / 4 * 64 + b1 % 4 * 16) / 16 = b1 := by omega
      rw [e1]
  | case3 b1 b2 =>
    have hb1 : b1 < 256 := h b1 (by simp)
    have hb2 : b2 < 256 := h b2 (by simp)
    have h1 : b1 / 4 < 64 := by omega
    have h2 : b1 % 4 * 16 + b2 / 16 < 64 := by omega
    have h3 : b2 % 16 * 4 < 64 := by omega
    refine ⟨[b64Char (b1 / 4), b64Char (b1 % 4 * 16 + b2 / 16), b64Char (b2 % 16 * 4)], 1,
      rfl, ?_, by omega, by simp, by simp, ?_⟩
    · intro c hc
      simp only [List.mem_cons, List.not_mem_nil, or_false] at hc
      rcases hc with rfl | rfl | rfl <;>
        exact ⟨isB64Char_b64Char _ (by omega), b64Char_ne_pad _ (by omega)⟩
    · rw [b64decodeData, b64Index_b64Char _ h1, b64Index_b64Char _ h2, b64Index_b64Char _ h3]
      have e1 : (b1 / 4 * 4096 + (b1 % 4 * 16 + b2 / 16) * 64 + b2 % 16 * 4) / 1024 = b1 := by
        omega
      have e2 : (b1 / 4 * 4096 + (b1 % 4 * 16 + b2 / 16) * 64 + b2 % 16 * 4) / 4 % 256 = b2 := by
        omega
      rw [e1, e2]
  | case4 b1 b2 b3 rest ih =>
    have hb1 : b1 < 256 := h b1 (by simp)
    have hb2 : b2 < 256 := h b2 (by simp)
    have hb3 : b3 < 256 := h b3 (by simp)
    have hrest : ValidBytes rest := fun x hx => h x (by simp [hx])
    obtain ⟨d, p, henc, hchars, hp2, hlen, hpmod, hdec⟩ := ih hrest
    have h1 : b1 / 4 < 64 := by omega
    have h2 : b1 % 4 * 16 + b2 / 16 < 64 := by omega
    have h3 : b2 % 16 * 4 + b3 / 64 < 64 := by omega
    have h4 : b3 % 64 < 64 := by omega
    refine ⟨b64Char (b1 / 4) :: b64Char (b1 % 4 * 16 + b2 / 16) ::
      b64Char (b2 % 16 * 4 + b3 / 64) :: b64Char (b3 % 64) :: d, p, ?_, ?_, hp2, ?_, ?_, ?_⟩
    · show b64encode (b1 :: b2 :: b3 :: rest) = _
      rw [b64encode, henc]
      rfl
    · intro c hc
      simp only [List.mem_cons] at hc
      rcases hc with rfl | rfl | rfl | rfl | hc
      · exact ⟨isB64Char_b64Char _ (by omega), b64Char_ne_pad _ (by omega)⟩
      · exact ⟨isB64Char_b64Char _ (by omega), b64Char_ne_pad _ (by omega)⟩
      · exact ⟨isB64Char_b64Char _ (by omega), b64Char_ne_pad _ (by omega)⟩
      · exact ⟨isB64Char_b64Char _ (by omega), b64Char_ne_pad _ (by omega)⟩
      · exact hchars c hc
    · simp only [List.length_cons]
      omega
    · simp only [List.length_cons]
      omega
    · have e1 : (b1 / 4 * 262144 + (b1 % 4 * 16 + b2 / 16) * 4096 +
          (b2 % 16 * 4 + b3 / 64) * 64 + b3 % 64) / 65536 = b1 := by omega
      have e2 : (b1 / 4 * 262144 + (b1 % 4 * 16 + b2 / 16) * 4096 +
          (b2 % 16 * 4 + b3 / 64) * 64 + b3 % 64) / 256 % 256 = b2 := by omega
      have e3 : (b1 / 4 * 262144 + (b1 % 4 * 16 + b2 / 16) * 4096 +
          (b2 % 16 * 4 + b3 / 64) * 64 + b3 % 64) % 256 = b3 := by omega
      simp [b64decodeData, hdec, b64Index_b64Char _ h1, b64Index_b64Char _ h2,
        b64Index_b64Char _ h3, b64Index_b64Char _ h4, e1, e2, e3]

/-- Round trip of the base64 codec on valid byte strings. -/
theorem b64decode_b64encode {bs : List Nat} (h : ValidBytes bs) :
    b64decode (b64encode bs) = some bs := by
  obtain ⟨d, p, henc, hchars, hp2, hlen, _, hdec⟩ := b64encode_structure h
  have hfilter : (b64encode bs).filter (fun c => isB64Char c || c == '=') = b64encode bs := by
    rw [List.filter_eq_self]
    intro c hc
    rw [henc] at hc
    rcases List.mem_append.mp hc with hc | hc
    · simp [(hchars c hc).1]
    · simp [List.eq_of_mem_replicate hc]
  have htake : (b64encode bs).takeWhile (fun c => c ≠ '=') = d := by
    rw [henc, takeWhile_append_all (fun x hx => by simp [(hchars x hx).2])]
    cases p with
    | zero => simp
    | succ q => simp [List.replicate_succ, List.takeWhile_cons]
  have hlen2 : (b64encode bs).length = d.length + p := by
    rw [henc]; simp
  rw [b64decode]
  simp only [hfilter, htake, hlen2]
  rw [if_neg (by omega), if_neg (by omega), if_neg (by simp [henc]), hdec]

/-- Totality and output length of `b64decodeData` on data whose length is a
multiple of four, regardless of the characters involved. -/
theorem b64decodeData_total : ∀ d : List Char, d.length % 4 = 0 →
    ∃ bs, b64decodeData d = some bs ∧ bs.length = d.length / 4 * 3 := by
  intro d
  induction d using b64decodeData.induct with
  | case1 => exact fun _ => ⟨[], rfl, rfl⟩
  | case2 c1 c2 c3 c4 rest ih =>
    intro hlen
    simp only [List.length_cons] at hlen
    obtain ⟨bs, hbs, hlenbs⟩ := ih (by omega)
    refine ⟨_, by rw [b64decodeData, hbs]; rfl, ?_⟩
    simp only [List.length_cons, hlenbs]
    omega
  | case3 c1 c2 c3 => intro hlen; simp at hlen
  | case4 c1 c2 => intro hlen; simp at hlen
  | case5 c1 => intro hlen; simp at hlen

/-! ## UTF-8 codec

`str.encode("utf-8")` and `bytes.decode("utf-8")` in Python; the decoder is
strict: continuation bytes must be in `0x80..0xBF`, overlong encodings,
surrogates and values above `0x10FFFF` are rejected. -/

/-- UTF-8 bytes of a unicode scalar value. -/
def utf8EncodeNat (n : Nat) : List Nat :=
  if n < 128 then [n]
  else if n < 2048 then [192 + n / 64, 128 + n % 64]
  else if n < 65536 then [224 + n / 4096, 128 + n / 64 % 64, 128 + n % 64]
  else [240 + n / 262144, 128 + n / 4096 % 64, 128 + n / 64 % 64, 128 + n % 64]

/-- UTF-8 bytes of a character. -/
def utf8EncodeChar (c : Char) : List Nat := utf8EncodeNat c.toNat

/-- UTF-8 encoding of text, as `str.encode("utf-8")`. -/
def utf8Encode (s : List Char) : List Nat := s.flatMap utf8EncodeChar

/-- Whether a byte is a UTF-8 continuation byte. -/
def isCont (b : Nat) : Prop := 128 ≤ b ∧ b < 192

instance : DecidablePred isCont := fun b => inferInstanceAs (Decidable (_ ∧ _))

/-- Finish decoding a two-byte UTF-8 sequence with lead byte `b0`. -/
def utf8Dec2 : Nat → List Nat → Option (Char × List Nat)
  | b0, b1 :: rest =>
    if isCont b1 then some (Char.ofNat ((b0 - 192) * 64 + (b1 - 128)), rest) else none
  | _, [] => none

/-- Finish decoding a three-byte UTF-8 sequence with lead byte `b0`; overlong
encodings and surrogate values are rejected. -/
def utf8Dec3 : Nat → List Nat → Option (Char × List Nat)
  | b0, b1 :: b2 :: rest =>
    if isCont b1 ∧ isCont b2 ∧ 2048 ≤ (b0 - 224) * 4096 + (b1 - 128) * 64 + (b2 - 128) ∧
        ((b0 - 224) * 4096 + (b1 - 128) * 64 + (b2 - 128) < 55296 ∨
          57344 ≤ (b0 - 224) * 4096 + (b1 - 128) * 64 + (b2 - 128)) then
      some (Char.ofNat ((b0 - 224) * 4096 + (b1 - 128) * 64 + (b2 - 128)), rest)
    else none
  | _, _ => none

/-- Finish decoding a four-byte UTF-8 sequence with lead byte `b0`; overlong
encodings and values above the unicode range are rejected. -/
def utf8Dec4 : Nat → List Nat → Option (Char × List Nat)
  | b0, b1 :: b2 :: b3 :: rest =>
    if isCont b1 ∧ isCont b2 ∧ isCont b3 ∧
        65536 ≤ (b0 - 240) * 262144 + (b1 - 128) * 4096 + (b2 - 128) * 64 + (b3 - 128) ∧
        (b0 - 240) * 262144 + (b1 - 128) * 4096 + (b2 - 128) * 64 + (b3 - 128) < 1114112 then
      some (Char.ofNat ((b0 - 240) * 262144 + (b1 - 128) * 4096 + (b2 - 128) * 64 + (b3 - 128)),
        rest)
    else none
  | _, _ => none

/-- Decode one UTF-8 character, returning it and the remaining bytes; lead
bytes `0x80..0xC1` and `0xF5..` are invalid (strict decoding). -/
def utf8DecodeOne : List Nat → Option (Char × List Nat)
  | [] => none
  | b0 :: rest =>
    if b0 < 128 then some (Char.ofNat b0, rest)
    else if b0 < 194 then none
    else if b0 < 224 then utf8Dec2 b0 rest
    else if b0 < 240 then utf8Dec3 b0 rest
    else if b0 < 245 then utf8Dec4 b0 rest
    else none

/-- Strict UTF-8 decoding; the fuel argument bounds the number of decoded
characters and makes the recursion structural. -/
def utf8DecodeAux : Nat → List Nat → Option (List Char)
  | _, [] => some []
  | 0, _ :: _ => none
  | fuel + 1, b0 :: rest =>
    match utf8DecodeOne (b0 :: rest) with
    | some (c, rest2) => (utf8DecodeAux fuel rest2).map (fun cs => c :: cs)
    | none => none

/-- Strict UTF-8 decoding of a byte string, as `bytes.decode("utf-8")`. -/
def utf8Decode (bs : List Nat) : Option (List Char) := utf8DecodeAux bs.length bs

theorem char_toNat_valid (c : Char) :
    c.toNat < 55296 ∨ (57344 ≤ c.toNat ∧ c.toNat < 1114112) := by
  rcases c.valid with h | h
  · exact Or.inl h
  · exact Or.inr h

theorem validBytes_utf8EncodeChar (c : Char) : ValidBytes (utf8EncodeChar c) := by
  have hv := char_toNat_valid c
  intro b hb
  rw [utf8EncodeChar, utf8EncodeNat] at hb
  split at hb
  · simp only [List.mem_singleton] at hb; omega
  · split at hb
    · simp only [List.mem_cons, List.not_mem_nil, or_false] at hb
      rcases hb with rfl | rfl <;> omega
    · split at hb
      · simp only [List.mem_cons, List.not_mem_nil, or_false] at hb
        rcases hb with rfl | rfl | rfl <;> omega
      · simp only [List.mem_cons, List.not_mem_nil, or_false] at hb
        rcases hb with rfl | rfl | rfl | rfl <;> omega

theorem validBytes_utf8Encode (s : List Char) : ValidBytes (utf8Encode s) := by
  intro b hb
  rw [utf8Encode, List.mem_flatMap] at hb
  obtain ⟨c, _, hc⟩ := hb
  exact validBytes_utf8EncodeChar c b hc

/-- Decoding one character of an encoded stream recovers that character. -/
theorem utf8DecodeOne_encodeChar (c : Char) (rest : List Nat) :
    utf8DecodeOne (utf8EncodeChar c ++ rest) = some (c, rest) := by
  have hv := char_toNat_valid c
  have hofNat : Char.ofNat c.toNat = c := Char.ofNat_toNat c
  by_cases h1 : c.toNat < 128
  · have hlist : utf8EncodeChar c ++ rest = c.toNat :: rest := by
      rw [utf8EncodeChar, utf8EncodeNat, if_pos h1]
      simp
    rw [hlist, utf8DecodeOne, if_pos h1, hofNat]
  · by_cases h2 : c.toNat < 2048
    · have hlist : utf8EncodeChar c ++ rest =
          (192 + c.toNat / 64) :: (128 + c.toNat % 64) :: rest := by
        rw [utf8EncodeChar, utf8EncodeNat, if_neg h1, if_pos h2]
        simp
      rw [hlist, utf8DecodeOne, if_neg (by omega), if_neg (by omega), if_pos (by omega),
        utf8Dec2, if_pos (by constructor <;> omega)]
      have e : (192 + c.toNat / 64 - 192) * 64 + (128 + c.toNat % 64 - 128) = c.toNat := by
        omega
      rw [e, hofNat]
    · by_cases h3 : c.toNat < 65536
      · have hlist : utf8EncodeChar c ++ rest =
            (224 + c.toNat / 4096) :: (128 + c.toNat / 64 % 64) :: (128 + c.toNat % 64) :: rest := by
          rw [utf8EncodeChar, utf8EncodeNat, if_neg h1, if_neg h2, if_pos h3]
          simp
        rw [hlist, utf8DecodeOne, if_neg (by omega), if_neg (by omega), if_neg (by omega),
          if_pos (by omega), utf8Dec3]
        have e : (224 + c.toNat / 4096 - 224) * 4096 + (128 + c.toNat / 64 % 64 - 128) * 64 +
            (128 + c.toNat % 64 - 128) = c.toNat := by omega
        rw [if_pos (by refine ⟨by constructor <;> omega, by constructor <;> omega, ?_, ?_⟩ <;>
          rw [e] <;> omega), e, hofNat]
      · have hlist : utf8EncodeChar c ++ rest =
            (240 + c.toNat / 262144) :: (128 + c.toNat / 4096 % 64) ::
              (128 + c.toNat / 64 % 64) :: (128 + c.toNat % 64) :: rest := by
          rw [utf8EncodeChar, utf8EncodeNat, if_neg h1, if_neg h2, if_neg h3]
          simp
        rw [hlist, utf8DecodeOne, if_neg (by omega), if_neg (by omega), if_neg (by omega),
          if_neg (by omega), if_pos (by omega), utf8Dec4]
        have e : (240 + c.toNat / 262144 - 240) * 262144 + (128 + c.toNat / 4096 % 64 - 128) * 4096 +
            (128 + c.toNat / 64 % 64 - 128) * 64 + (128 + c.toNat % 64 - 128) = c.toNat := by omega
        rw [if_pos (by refine ⟨by constructor <;> omega, by constructor <;> omega,
          by constructor <;> omega, ?_, ?_⟩ <;> rw [e] <;> omega), e, hofNat]

theorem utf8EncodeChar_ne_nil (c : Char) : utf8EncodeChar c ≠ [] := by
  rw [utf8EncodeChar, utf8EncodeNat]
  split
  · simp
  · split
    · simp
    · split <;> simp

theorem utf8DecodeAux_encode (s : List Char) :
    ∀ fuel, s.length ≤ fuel → utf8DecodeAux fuel (utf8Encode s) = some s := by
  induction s with
  | nil =>
    intro fuel _
    show utf8DecodeAux fuel [] = some []
    cases fuel <;> rfl
  | cons c tl ih =>
    intro fuel hfuel
    cases fuel with
    | zero => simp at hfuel
    | succ f =>
      show utf8DecodeAux (f + 1) (utf8EncodeChar c ++ utf8Encode tl) = _
      have hone := utf8DecodeOne_encodeChar c (utf8Encode tl)
      obtain ⟨b0, bs, hb⟩ : ∃ b0 bs, utf8EncodeChar c = b0 :: bs := by
        cases hc : utf8EncodeChar c with
        | nil => exact absurd hc (utf8EncodeChar_ne_nil c)
        | cons x xs => exact ⟨x, xs, rfl⟩
      rw [hb] at hone ⊢
      rw [List.cons_append] at hone ⊢
      rw [utf8DecodeAux, hone]
      show (utf8DecodeAux f (utf8Encode tl)).map (fun cs => c :: cs) = some (c :: tl)
      rw [ih f (by simpa using hfuel)]
      rfl

theorem utf8Encode_length_ge (s : List Char) : s.length ≤ (utf8Encode s).length := by
  induction s with
  | nil => simp [utf8Encode]
  | cons c tl ih =>
    show (c :: tl).length ≤ (utf8EncodeChar c ++ utf8Encode tl).length
    have hpos : 1 ≤ (utf8EncodeChar c).length := by
      cases hc : utf8EncodeChar c with
      | nil => exact absurd hc (utf8EncodeChar_ne_nil c)
      | cons x xs => simp
    simp only [List.length_cons, List.length_append]
    omega

/-- Round trip of the UTF-8 codec. -/
theorem utf8Decode_utf8Encode (s : List Char) : utf8Decode (utf8Encode s) = some s :=
  utf8DecodeAux_encode s _ (utf8Encode_length_ge s)

/-! ## PKCS#7 padding

`cryptography.hazmat.primitives.padding.PKCS7(128)`: pad to a multiple of 16
bytes with `k` bytes of value `k`, `1 ≤ k ≤ 16`; unpadding validates the total
length and every padding byte. -/

/-- PKCS#7 padding to 16-byte blocks. -/
def pkcs7pad (d : List Nat) : List Nat :=
  d ++ List.replicate (16 - d.length % 16) (16 - d.length % 16)

/-- PKCS#7 unpadding with full validation, failing as the finalizer of the
`cryptography` unpadder does on malformed input. -/
def pkcs7unpad (d : List Nat) : Option (List Nat) :=
  let n := d.getLast?.getD 0
  if d.length = 0 ∨ d.length % 16 ≠ 0 then none
  else if n = 0 ∨ 16 < n ∨ d.length < n then none
  else if d.drop (d.length - n) ≠ List.replicate n n then none
  else some (d.take (d.length - n))

theorem pkcs7pad_length (d : List Nat) :
    (pkcs7pad d).length = d.length + (16 - d.length % 16) := by
  simp [pkcs7pad]

theorem pkcs7pad_length_mod (d : List Nat) : (pkcs7pad d).length % 16 = 0 := by
  rw [pkcs7pad_length]
  omega

theorem validBytes_pkcs7pad {d : List Nat} (h : ValidBytes d) : ValidBytes (pkcs7pad d) := by
  refine validBytes_append h ?_
  intro b hb
  have := List.eq_of_mem_replicate hb
  omega

/-- Round trip of PKCS#7 padding. -/
theorem pkcs7unpad_pkcs7pad (d : List Nat) : pkcs7unpad (pkcs7pad d) = some d := by
  have hrep : List.replicate (16 - d.length % 16) (16 - d.length % 16) =
      List.replicate (16 - d.length % 16 - 1) (16 - d.length % 16) ++
        [16 - d.length % 16] := by
    rw [← List.replicate_succ']
    congr 1
    omega
  have hlen := pkcs7pad_length d
  have hlast : (pkcs7pad d).getLast?.getD 0 = 16 - d.length % 16 := by
    rw [pkcs7pad, hrep, ← List.append_assoc, List.getLast?_concat]
    rfl
  rw [pkcs7unpad]
  simp only [hlast]
  rw [if_neg (by rw [hlen]; omega), if_neg (by rw [hlen]; omega)]
  have hback : (pkcs7pad d).length - (16 - d.length % 16) = d.length := by omega
  rw [hback, pkcs7pad, List.drop_left, List.take_left, if_neg (by simp)]

/-! ## Percent-encoding

`urllib.parse.quote(raw, safe="")` encodes the UTF-8 bytes of every character
outside the always-safe set (letters, digits, `_`, `.`, `-`, `~`) as `%XX`
with uppercase hexadecimal digits. -/

/-- Characters never quoted by `urllib.parse.quote`. -/
def isUrlSafe (c : Char) : Bool :=
  (65 ≤ c.toNat && c.toNat ≤ 90) || (97 ≤ c.toNat && c.toNat ≤ 122) ||
    (48 ≤ c.toNat && c.toNat ≤ 57) || c == '_' || c == '.' || c == '-' || c == '~'

/-- Uppercase hexadecimal digit for a value below 16. -/
def hexDigitCharUpper (n : Nat) : Char :=
  if n < 10 then Char.ofNat (48 + n) else Char.ofNat (55 + n)

/-- Percent escape of one byte, `%XX` with uppercase digits. -/
def percentByte (b : Nat) : List Char :=
  ['%', hexDigitCharUpper (b / 16), hexDigitCharUpper (b % 16)]

/-- Quote one character: kept when always-safe, otherwise every UTF-8 byte is
percent-escaped. -/
def quoteChar (c : Char) : List Char :=
  if isUrlSafe c then [c] else (utf8EncodeChar c).flatMap percentByte

/-- The function `urllib.parse.quote(s, safe="")`. -/
def pyQuote (s : List Char) : List Char := s.flatMap quoteChar

theorem pyQuote_append (xs ys : List Char) :
    pyQuote (xs ++ ys) = pyQuote xs ++ pyQuote ys := by
  simp [pyQuote]

/-- Quoting text made only of always-safe characters changes nothing. -/
theorem pyQuote_safe {s : List Char} (h : ∀ c ∈ s, isUrlSafe c = true) :
    pyQuote s = s := by
  induction s with
  | nil => rfl
  | cons c tl ih =>
    show quoteChar c ++ pyQuote tl = c :: tl
    rw [quoteChar, if_pos (h c (List.mem_cons_self ..)),
      ih (fun x hx => h x (List.mem_cons_of_mem _ hx))]
    rfl

theorem isUrlSafe_hexDigitChar : ∀ n < 16, isUrlSafe (hexDigitChar n) = true := by decide

theorem pyQuote_hexEncode {bs : List Nat} (h : ValidBytes bs) :
    pyQuote (hexEncode bs) = hexEncode bs := by
  refine pyQuote_safe ?_
  intro c hc
  rw [hexEncode, List.mem_flatMap] at hc
  obtain ⟨b, hbmem, hb⟩ := hc
  have hblt : b < 256 := h b hbmem
  rw [hexOfByte] at hb
  simp only [List.mem_cons, List.not_mem_nil, or_false] at hb
  rcases hb with rfl | rfl <;> exact isUrlSafe_hexDigitChar _ (by omega)

/-! ## AES-128

Executable model of the AES-128 block cipher (FIPS-197), as implemented by
`cryptography.hazmat.primitives.ciphers.algorithms.AES` and used by
`_encrypt` / `_decrypt` in CBC mode.  A block is a list of 16 bytes in input
order; the state matrix entry at row `r`, column `c` is element `r + 4 * c`. -/

/-- The AES S-box. -/
def sboxTable : List Nat := [
  99, 124, 119, 123, 242, 107, 111, 197, 48, 1, 103, 43, 254, 215, 171, 118,
  202, 130, 201, 125, 250, 89, 71, 240, 173, 212, 162, 175, 156, 164, 114, 192,
  183, 253, 147, 38, 54, 63, 247, 204, 52, 165, 229, 241, 113, 216, 49, 21,
  4, 199, 35, 195, 24, 150, 5, 154, 7, 18, 128, 226, 235, 39, 178, 117,
  9, 131, 44, 26, 27, 110, 90, 160, 82, 59, 214, 179, 41, 227, 47, 132,
  83, 209, 0, 237, 32, 252, 177, 91, 106, 203, 190, 57, 74, 76, 88, 207,
  208, 239, 170, 251, 67, 77, 51, 133, 69, 249, 2, 127, 80, 60, 159, 168,
  81, 163, 64, 143, 146, 157, 56, 245, 188, 182, 218, 33, 16, 255, 243, 210,
  205, 12, 19, 236, 95, 151, 68, 23, 196, 167, 126, 61, 100, 93, 25, 115,
  96, 129, 79, 220, 34, 42, 144, 136, 70, 238, 184, 20, 222, 94, 11, 219,
  224, 50, 58, 10, 73, 6, 36, 92, 194, 211, 172, 98, 145, 149, 228, 121,
  231, 200, 55, 109, 141, 213, 78, 169, 108, 86, 244, 234, 101, 122, 174, 8,
  186, 120, 37, 46, 28, 166, 180, 198, 232, 221, 116, 31, 75, 189, 139, 138,
  112, 62, 181, 102, 72, 3, 246, 14, 97, 53, 87, 185, 134, 193, 29, 158,
  225, 248, 152, 17, 105, 217, 142, 148, 155, 30, 135, 233, 206, 85, 40, 223,
  140, 161, 137, 13, 191, 230, 66, 104, 65, 153, 45, 15, 176, 84, 187, 22]

/-- The inverse AES S-box. -/
def rsboxTable : List Nat := [
  82, 9, 106, 213, 48, 54, 165, 56, 191, 64, 163, 158, 129, 243, 215, 251,
  124, 227, 57, 130, 155, 47, 255, 135, 52, 142, 67, 68, 196, 222, 233, 203,
  84, 123, 148, 50, 166, 194, 35, 61, 238, 76, 149, 11, 66, 250, 195, 78,
  8, 46, 161, 102, 40, 217, 36, 178, 118, 91, 162, 73, 109, 139, 209, 37,
  114, 248, 246, 100, 134, 104, 152, 22, 212, 164, 92, 204, 93, 101, 182, 146,
  108, 112, 72, 80, 253, 237, 185, 218, 94, 21, 70, 87, 167, 141, 157, 132,
  144, 216, 171, 0, 140, 188, 211, 10, 247, 228, 88, 5, 184, 179, 69, 6,
  208, 44, 30, 143, 202, 63, 15, 2, 193, 175, 189, 3, 1, 19, 138, 107,
  58, 145, 17, 65, 79, 103, 220, 234, 151, 242, 207, 206, 240, 180, 230, 115,
  150, 172, 116, 34, 231, 173, 53, 133, 226, 249, 55, 232, 28, 117, 223, 110,
  71, 241, 26, 113, 29, 41, 197, 137, 111, 183, 98, 14, 170, 24, 190, 27,
  252, 86, 62, 75, 198, 210, 121, 32, 154, 219, 192, 254, 120, 205, 90, 244,
  31, 221, 168, 51, 136, 7, 199, 49, 177, 18, 16, 89, 39, 128, 236, 95,
  96, 81, 127, 169, 25, 181, 74, 13, 45, 229, 122, 159, 147, 201, 156, 239,
  160, 224, 59, 77, 174, 42, 245, 176, 200, 235, 187, 60, 131, 83, 153, 97,
  23, 43, 4, 126, 186, 119, 214, 38, 225, 105, 20, 99, 85, 33, 12, 125]

/-- S-box lookup. -/
def sbox (b : Nat) : Nat := sboxTable.getD b 0

/-- Inverse S-box lookup. -/
def rsbox (b : Nat) : Nat := rsboxTable.getD b 0

theorem rsbox_sbox : ∀ b < 256, rsbox (sbox b) = b := by decide

theorem sbox_lt : ∀ b < 256, sbox b < 256 := by decide

/-- Multiplication by `x` in GF(2^8) with the AES reduction polynomial. -/
def xtime (x : Nat) : Nat := if x < 128 then 2 * x else 2 * x ^^^ 283

/-- Binary multiplication in GF(2^8), with enough fuel for one byte. -/
def gmulAux : Nat → Nat → Nat → Nat
  | 0, _, _ => 0
  | f + 1, k, x => (if k % 2 = 1 then x else 0) ^^^ gmulAux f (k / 2) (xtime x)

/-- Multiplication in GF(2^8) by a constant below 256. -/
def gmul (k x : Nat) : Nat := gmulAux 8 k x

theorem xtime_lt : ∀ x < 256, xtime x < 256 := by decide

theorem xor_lt_256 {x y : Nat} (hx : x < 256) (hy : y < 256) : x ^^^ y < 256 :=
  Nat.xor_lt_two_pow (n := 8) hx hy

theorem xor_mix (a b c d : Nat) : (a ^^^ b) ^^^ (c ^^^ d) = (a ^^^ c) ^^^ (b ^^^ d) := by
  rw [Nat.xor_assoc, Nat.xor_assoc]
  congr 1
  rw [← Nat.xor_assoc, ← Nat.xor_assoc, Nat.xor_comm b c]

theorem two_mul_xor (x y : Nat) : 2 * (x ^^^ y) = 2 * x ^^^ 2 * y := by
  have h2 : ∀ a : Nat, 2 * a = a <<< 1 := fun a => by
    rw [Nat.shiftLeft_succ, Nat.shiftLeft_zero, Nat.mul_comm]
  rw [h2, h2, h2]
  apply Nat.eq_of_testBit_eq
  intro i
  simp only [Nat.testBit_shiftLeft, Nat.testBit_xor]
  cases decide (1 ≤ i) <;> simp

theorem testBit7_iff {z : Nat} (hz : z < 256) : z.testBit 7 = true ↔ 128 ≤ z := by
  rw [Nat.testBit_to_div_mod]
  constructor
  · intro h
    have := of_decide_eq_true h
    omega
  · intro h
    apply decide_eq_true
    omega

theorem xor_left_comm (a b c : Nat) : a ^^^ (b ^^^ c) = b ^^^ (a ^^^ c) := by
  rw [← Nat.xor_assoc, Nat.xor_comm a b, Nat.xor_assoc]

theorem xtime_eq_testBit {z : Nat} (hz : z < 256) :
    xtime z = 2 * z ^^^ (if z.testBit 7 then 283 else 0) := by
  by_cases h : 128 ≤ z
  · rw [if_pos ((testBit7_iff hz).mpr h), xtime, if_neg (by omega)]
  · have hb : z.testBit 7 = false := by
      rcases Bool.eq_false_or_eq_true (z.testBit 7) with h7 | h7
      · exact absurd ((testBit7_iff hz).mp h7) h
      · exact h7
    rw [hb, if_neg (by simp), xtime, if_pos (by omega), Nat.xor_zero]

/-- Linearity of `xtime` over byte-wise exclusive or. -/
theorem xtime_xor {x y : Nat} (hx : x < 256) (hy : y < 256) :
    xtime (x ^^^ y) = xtime x ^^^ xtime y := by
  have hxy : x ^^^ y < 256 := xor_lt_256 hx hy
  rw [xtime_eq_testBit hx, xtime_eq_testBit hy, xtime_eq_testBit hxy, Nat.testBit_xor]
  cases h1 : x.testBit 7 <;> cases h2 : y.testBit 7
  · simp [two_mul_xor]
  · simp [two_mul_xor, Nat.xor_assoc]
  · simp only [Bool.xor_false, if_true, if_neg Bool.false_ne_true, two_mul_xor, Nat.xor_zero]
    rw [Nat.xor_assoc, Nat.xor_comm (2 * y) 283, ← Nat.xor_assoc]
  · have hc : (Bool.xor true true) = false := rfl
    simp only [hc, if_true, if_neg Bool.false_ne_true, two_mul_xor, Nat.xor_zero]
    rw [xor_mix, Nat.xor_self, Nat.xor_zero]

theorem gmulAux_lt {x : Nat} (hx : x < 256) : ∀ f k, gmulAux f k x < 256 := by
  intro f
  induction f generalizing x hx with
  | zero => intro k; simp [gmulAux]
  | succ f ih =>
    intro k
    rw [gmulAux]
    refine xor_lt_256 ?_ (ih (xtime_lt x hx) _)
    split <;> omega

theorem gmul_lt {x : Nat} (hx : x < 256) (k : Nat) : gmul k x < 256 := gmulAux_lt hx 8 k

/-- Linearity of GF(2^8) multiplication over exclusive or. -/
theorem gmulAux_xor {x y : Nat} (hx : x < 256) (hy : y < 256) :
    ∀ f k, gmulAux f k (x ^^^ y) = gmulAux f k x ^^^ gmulAux f k y := by
  intro f
  induction f generalizing x y hx hy with
  | zero => intro k; simp [gmulAux]
  | succ f ih =>
    intro k
    rw [gmulAux, gmulAux, gmulAux, xtime_xor hx hy, ih (xtime_lt x hx) (xtime_lt y hy), xor_mix]
    congr 1
    split <;> simp

theorem gmul_xor {x y : Nat} (hx : x < 256) (hy : y < 256) (k : Nat) :
    gmul k (x ^^^ y) = gmul k x ^^^ gmul k y := gmulAux_xor hx hy 8 k

/-- MixColumns on one column. -/
def mixCol (a b c d : Nat) : Nat × Nat × Nat × Nat :=
  (gmul 2 a ^^^ gmul 3 b ^^^ c ^^^ d,
   a ^^^ gmul 2 b ^^^ gmul 3 c ^^^ d,
   a ^^^ b ^^^ gmul 2 c ^^^ gmul 3 d,
   gmul 3 a ^^^ b ^^^ c ^^^ gmul 2 d)

/-- Inverse MixColumns on one column. -/
def invMixCol (a b c d : Nat) : Nat × Nat × Nat × Nat :=
  (gmul 14 a ^^^ gmul 11 b ^^^ gmul 13 c ^^^ gmul 9 d,
   gmul 9 a ^^^ gmul 14 b ^^^ gmul 11 c ^^^ gmul 13 d,
   gmul 13 a ^^^ gmul 9 b ^^^ gmul 14 c ^^^ gmul 11 d,
   gmul 11 a ^^^ gmul 13 b ^^^ gmul 9 c ^^^ gmul 14 d)

/-- Byte-wise exclusive or of two columns. -/
def xorCol : Nat × Nat × Nat × Nat → Nat × Nat × Nat × Nat → Nat × Nat × Nat × Nat
  | (a, b, c, d), (a', b', c', d') => (a ^^^ a', b ^^^ b', c ^^^ c', d ^^^ d')

theorem mixCol_valid {a b c d : Nat} (ha : a < 256) (hb : b < 256) (hc : c < 256)
    (hd : d < 256) :
    (mixCol a b c d).1 < 256 ∧ (mixCol a b c d).2.1 < 256 ∧ (mixCol a b c d).2.2.1 < 256 ∧
      (mixCol a b c d).2.2.2 < 256 := by
  refine ⟨?_, ?_, ?_, ?_⟩ <;>
    exact xor_lt_256 (xor_lt_256 (xor_lt_256 (by first | exact gmul_lt ‹_› _ | assumption)
        (by first | exact gmul_lt ‹_› _ | assumption))
      (by first | exact gmul_lt ‹_› _ | assumption))
      (by first | exact gmul_lt ‹_› _ | assumption)

theorem mixCol_linear {a b c d a' b' c' d' : Nat} (ha : a < 256) (hb : b < 256) (hc : c < 256)
    (hd : d < 256) (ha' : a' < 256) (hb' : b' < 256) (hc' : c' < 256) (hd' : d' < 256) :
    mixCol (a ^^^ a') (b ^^^ b') (c ^^^ c') (d ^^^ d') =
      xorCol (mixCol a b c d) (mixCol a' b' c' d') := by
  rw [mixCol, mixCol, mixCol, xorCol]
  simp only [gmul_xor ha ha', gmul_xor hb hb', gmul_xor hc hc', gmul_xor hd hd']
  simp [Prod.mk.injEq, Nat.xor_assoc, Nat.xor_comm, xor_left_comm]

theorem invMixCol_linear {a b c d a' b' c' d' : Nat} (ha : a < 256) (hb : b < 256)
    (hc : c < 256) (hd : d < 256) (ha' : a' < 256) (hb' : b' < 256) (hc' : c' < 256)
    (hd' : d' < 256) :
    invMixCol (a ^^^ a') (b ^^^ b') (c ^^^ c') (d ^^^ d') =
      xorCol (invMixCol a b c d) (invMixCol a' b' c' d') := by
  rw [invMixCol, invMixCol, invMixCol, xorCol]
  simp only [gmul_xor ha ha', gmul_xor hb hb', gmul_xor hc hc', gmul_xor hd hd']
  simp [Prod.mk.injEq, Nat.xor_assoc, Nat.xor_comm, xor_left_comm]

theorem invMixCol_mixCol_e1 : ∀ a < 256,
    (let u := mixCol a 0 0 0; invMixCol u.1 u.2.1 u.2.2.1 u.2.2.2) = (a, 0, 0, 0) := by
  decide

theorem invMixCol_mixCol_e2 : ∀ b < 256,
    (let u := mixCol 0 b 0 0; invMixCol u.1 u.2.1 u.2.2.1 u.2.2.2) = (0, b, 0, 0) := by
  decide

theorem invMixCol_mixCol_e3 : ∀ c < 256,
    (let u := mixCol 0 0 c 0; invMixCol u.1 u.2.1 u.2.2.1 u.2.2.2) = (0, 0, c, 0) := by
  decide

theorem invMixCol_mixCol_e4 : ∀ d < 256,
    (let u := mixCol 0 0 0 d; invMixCol u.1 u.2.1 u.2.2.1 u.2.2.2) = (0, 0, 0, d) := by
  decide

/-- Column validity: all four bytes below 256. -/
def Valid4 (u : Nat × Nat × Nat × Nat) : Prop :=
  u.1 < 256 ∧ u.2.1 < 256 ∧ u.2.2.1 < 256 ∧ u.2.2.2 < 256

/-- MixColumns on a column given as a tuple. -/
def mc4 (u : Nat × Nat × Nat × Nat) : Nat × Nat × Nat × Nat :=
  mixCol u.1 u.2.1 u.2.2.1 u.2.2.2

/-- Inverse MixColumns on a column given as a tuple. -/
def imc4 (u : Nat × Nat × Nat × Nat) : Nat × Nat × Nat × Nat :=
  invMixCol u.1 u.2.1 u.2.2.1 u.2.2.2

theorem mc4_valid {u : Nat × Nat × Nat × Nat} (hu : Valid4 u) : Valid4 (mc4 u) := by
  obtain ⟨a, b, c, d⟩ := u
  obtain ⟨ha, hb, hc, hd⟩ := hu
  exact mixCol_valid ha hb hc hd

theorem valid4_xorCol {u v : Nat × Nat × Nat × Nat} (hu : Valid4 u) (hv : Valid4 v) :
    Valid4 (xorCol u v) := by
  obtain ⟨a, b, c, d⟩ := u
  obtain ⟨a', b', c', d'⟩ := v
  obtain ⟨ha, hb, hc, hd⟩ := hu
  obtain ⟨ha', hb', hc', hd'⟩ := hv
  exact ⟨xor_lt_256 ha ha', xor_lt_256 hb hb', xor_lt_256 hc hc', xor_lt_256 hd hd'⟩

theorem mc4_linear {u v : Nat × Nat × Nat × Nat} (hu : Valid4 u) (hv : Valid4 v) :
    mc4 (xorCol u v) = xorCol (mc4 u) (mc4 v) := by
  obtain ⟨a, b, c, d⟩ := u
  obtain ⟨a', b', c', d'⟩ := v
  obtain ⟨ha, hb, hc, hd⟩ := hu
  obtain ⟨ha', hb', hc', hd'⟩ := hv
  exact mixCol_linear ha hb hc hd ha' hb' hc' hd'

theorem imc4_linear {u v : Nat × Nat × Nat × Nat} (hu : Valid4 u) (hv : Valid4 v) :
    imc4 (xorCol u v) = xorCol (imc4 u) (imc4 v) := by
  obtain ⟨a, b, c, d⟩ := u
  obtain ⟨a', b', c', d'⟩ := v
  obtain ⟨ha, hb, hc, hd⟩ := hu
  obtain ⟨ha', hb', hc', hd'⟩ := hv
  exact invMixCol_linear ha hb hc hd ha' hb' hc' hd'

theorem imc4_mc4_b1 : ∀ a < 256, imc4 (mc4 (a, 0, 0, 0)) = (a, 0, 0, 0) := by decide

theorem imc4_mc4_b2 : ∀ b < 256, imc4 (mc4 (0, b, 0, 0)) = (0, b, 0, 0) := by decide

theorem imc4_mc4_b3 : ∀ c < 256, imc4 (mc4 (0, 0, c, 0)) = (0, 0, c, 0) := by decide

theorem imc4_mc4_b4 : ∀ d < 256, imc4 (mc4 (0, 0, 0, d)) = (0, 0, 0, d) := by decide

/-- Inverse MixColumns undoes MixColumns on any valid column. -/
theorem imc4_mc4 {u : Nat × Nat × Nat × Nat} (hu : Valid4 u) : imc4 (mc4 u) = u := by
  obtain ⟨a, b, c, d⟩ := u
  obtain ⟨ha, hb, hc, hd⟩ := hu
  have h0 : (0 : Nat) < 256 := by omega
  have v1 : Valid4 ((a, 0, 0, 0) : Nat × Nat × Nat × Nat) := ⟨ha, h0, h0, h0⟩
  have v2 : Valid4 ((0, b, 0, 0) : Nat × Nat × Nat × Nat) := ⟨h0, hb, h0, h0⟩
  have v3 : Valid4 ((0, 0, c, 0) : Nat × Nat × Nat × Nat) := ⟨h0, h0, hc, h0⟩
  have v4 : Valid4 ((0, 0, 0, d) : Nat × Nat × Nat × Nat) := ⟨h0, h0, h0, hd⟩
  have v34 : Valid4 (xorCol (0, 0, c, 0) (0, 0, 0, d)) := valid4_xorCol v3 v4
  have v234 : Valid4 (xorCol (0, b, 0, 0) (xorCol (0, 0, c, 0) (0, 0, 0, d))) :=
    valid4_xorCol v2 v34
  have e1 : ((a, b, c, d) : Nat × Nat × Nat × Nat) =
      xorCol (a, 0, 0, 0) (xorCol (0, b, 0, 0) (xorCol (0, 0, c, 0) (0, 0, 0, d))) := by
    simp [xorCol]
  rw [e1, mc4_linear v1 v234, mc4_linear v2 v34, mc4_linear v3 v4,
    imc4_linear (mc4_valid v1) (valid4_xorCol (mc4_valid v2) (valid4_xorCol (mc4_valid v3) (mc4_valid v4))),
    imc4_linear (mc4_valid v2) (valid4_xorCol (mc4_valid v3) (mc4_valid v4)),
    imc4_linear (mc4_valid v3) (mc4_valid v4),
    imc4_mc4_b1 a ha, imc4_mc4_b2 b hb, imc4_mc4_b3 c hc, imc4_mc4_b4 d hd]

/-! ## AES state operations

The state is a 16-byte list in input order; entry `r + 4 * c` is the state
matrix entry at row `r`, column `c` (FIPS-197 layout). -/

/-- A 16-byte block with all entries below 256. -/
def Valid16 (l : List Nat) : Prop := l.length = 16 ∧ ValidBytes l

/-- Destructuring of a 16-element list. -/
theorem list16_cases {l : List Nat} (h : l.length = 16) :
    ∃ a0 a1 a2 a3 a4 a5 a6 a7 a8 a9 a10 a11 a12 a13 a14 a15,
      l = [a0, a1, a2, a3, a4, a5, a6, a7, a8, a9, a10, a11, a12, a13, a14, a15] := by
  cases l with
  | nil => simp only [List.length_nil, List.length_cons] at h; omega
  | cons a0 l =>
  cases l with
  | nil => simp only [List.length_nil, List.length_cons] at h; omega
  | cons a1 l =>
  cases l with
  | nil => simp only [List.length_nil, List.length_cons] at h; omega
  | cons a2 l =>
  cases l with
  | nil => simp only [List.length_nil, List.length_cons] at h; omega
  | cons a3 l =>
  cases l with
  | nil => simp only [List.length_nil, List.length_cons] at h; omega
  | cons a4 l =>
  cases l with
  | nil => simp only [List.length_nil, List.length_cons] at h; omega
  | cons a5 l =>
  cases l with
  | nil => simp only [List.length_nil, List.length_cons] at h; omega
  | cons a6 l =>
  cases l with
  | nil => simp only [List.length_nil, List.length_cons] at h; omega
  | cons a7 l =>
  cases l with
  | nil => simp only [List.length_nil, List.length_cons] at h; omega
  | cons a8 l =>
  cases l with
  | nil => simp only [List.length_nil, List.length_cons] at h; omega
  | cons a9 l =>
  cases l with
  | nil => simp only [List.length_nil, List.length_cons] at h; omega
  | cons a10 l =>
  cases l with
  | nil => simp only [List.length_nil, List.length_cons] at h; omega
  | cons a11 l =>
  cases l with
  | nil => simp only [List.length_nil, List.length_cons] at h; omega
  | cons a12 l =>
  cases l with
  | nil => simp only [List.length_nil, List.length_cons] at h; omega
  | cons a13 l =>
  cases l with
  | nil => simp only [List.length_nil, List.length_cons] at h; omega
  | cons a14 l =>
  cases l with
  | nil => simp only [List.length_nil, List.length_cons] at h; omega
  | cons a15 l =>
  cases l with
  | cons a16 l => simp only [List.length_cons] at h; omega
  | nil => exact ⟨a0, a1, a2, a3, a4, a5, a6, a7, a8, a9, a10, a11, a12, a13, a14, a15, rfl⟩

/-- SubBytes: S-box applied to every byte. -/
def subBytes (st : List Nat) : List Nat := st.map sbox

/-- InvSubBytes: inverse S-box applied to every byte. -/
def invSubBytes (st : List Nat) : List Nat := st.map rsbox

/-- ShiftRows: row `r` of the state matrix rotates left by `r`. -/
def shiftRows : List Nat → List Nat
  | [a0, a1, a2, a3, a4, a5, a6, a7, a8, a9, a10, a11, a12, a13, a14, a15] => [a0, a5, a10, a15, a4, a9, a14, a3, a8, a13, a2, a7, a12, a1, a6, a11]
  | l => l

/-- InvShiftRows: row `r` of the state matrix rotates right by `r`. -/
def invShiftRows : List Nat → List Nat
  | [a0, a1, a2, a3, a4, a5, a6, a7, a8, a9, a10, a11, a12, a13, a14, a15] => [a0, a13, a10, a7, a4, a1, a14, a11, a8, a5, a2, a15, a12, a9, a6, a3]
  | l => l

/-- MixColumns applied to the four columns of the state. -/
def mixColumns : List Nat → List Nat
  | [a0, a1, a2, a3, a4, a5, a6, a7, a8, a9, a10, a11, a12, a13, a14, a15] =>
    [(mc4 (a0, a1, a2, a3)).1, (mc4 (a0, a1, a2, a3)).2.1,
     (mc4 (a0, a1, a2, a3)).2.2.1, (mc4 (a0, a1, a2, a3)).2.2.2,
     (mc4 (a4, a5, a6, a7)).1, (mc4 (a4, a5, a6, a7)).2.1,
     (mc4 (a4, a5, a6, a7)).2.2.1, (mc4 (a4, a5, a6, a7)).2.2.2,
     (mc4 (a8, a9, a10, a11)).1, (mc4 (a8, a9, a10, a11)).2.1,
     (mc4 (a8, a9, a10, a11)).2.2.1, (mc4 (a8, a9, a10, a11)).2.2.2,
     (mc4 (a12, a13, a14, a15)).1, (mc4 (a12, a13, a14, a15)).2.1,
     (mc4 (a12, a13, a14, a15)).2.2.1, (mc4 (a12, a13, a14, a15)).2.2.2]
  | l => l

/-- InvMixColumns applied to the four columns of the state. -/
def invMixColumns : List Nat → List Nat
  | [a0, a1, a2, a3, a4, a5, a6, a7, a8, a9, a10, a11, a12, a13, a14, a15] =>
    [(imc4 (a0, a1, a2, a3)).1, (imc4 (a0, a1, a2, a3)).2.1,
     (imc4 (a0, a1, a2, a3)).2.2.1, (imc4 (a0, a1, a2, a3)).2.2.2,
     (imc4 (a4, a5, a6, a7)).1, (imc4 (a4, a5, a6, a7)).2.1,
     (imc4 (a4, a5, a6, a7)).2.2.1, (imc4 (a4, a5, a6, a7)).2.2.2,
     (imc4 (a8, a9, a10, a11)).1, (imc4 (a8, a9, a10, a11)).2.1,
     (imc4 (a8, a9, a10, a11)).2.2.1, (imc4 (a8, a9, a10, a11)).2.2.2,
     (imc4 (a12, a13, a14, a15)).1, (imc4 (a12, a13, a14, a15)).2.1,
     (imc4 (a12, a13, a14, a15)).2.2.1, (imc4 (a12, a13, a14, a15)).2.2.2]
  | l => l

/-- AddRoundKey: byte-wise exclusive or with the round key. -/
def addRoundKey (k st : List Nat) : List Nat := List.zipWith (fun a b => a ^^^ b) st k


theorem subBytes_length (st : List Nat) : (subBytes st).length = st.length := by
  simp [subBytes]

theorem invSubBytes_length (st : List Nat) : (invSubBytes st).length = st.length := by
  simp [invSubBytes]

theorem validBytes_subBytes {st : List Nat} (h : ValidBytes st) : ValidBytes (subBytes st) := by
  intro b hb
  rw [subBytes, List.mem_map] at hb
  obtain ⟨x, hx, rfl⟩ := hb
  exact sbox_lt x (h x hx)

theorem invSubBytes_subBytes {st : List Nat} (h : ValidBytes st) :
    invSubBytes (subBytes st) = st := by
  rw [invSubBytes, subBytes, List.map_map]
  have hcongr : ∀ x ∈ st, (rsbox ∘ sbox) x = id x := fun x hx => rsbox_sbox x (h x hx)
  rw [List.map_congr_left hcongr, List.map_id]

theorem valid16_subBytes {st : List Nat} (h : Valid16 st) : Valid16 (subBytes st) :=
  ⟨by rw [subBytes_length, h.1], validBytes_subBytes h.2⟩

theorem invShiftRows_shiftRows {st : List Nat} (h : st.length = 16) :
    invShiftRows (shiftRows st) = st := by
  obtain ⟨a0, a1, a2, a3, a4, a5, a6, a7, a8, a9, a10, a11, a12, a13, a14, a15, rfl⟩ := list16_cases h
  rfl

theorem shiftRows_length {st : List Nat} (h : st.length = 16) :
    (shiftRows st).length = 16 := by
  obtain ⟨a0, a1, a2, a3, a4, a5, a6, a7, a8, a9, a10, a11, a12, a13, a14, a15, rfl⟩ := list16_cases h
  rfl

theorem validBytes_shiftRows {st : List Nat} (h16 : st.length = 16) (h : ValidBytes st) :
    ValidBytes (shiftRows st) := by
  obtain ⟨a0, a1, a2, a3, a4, a5, a6, a7, a8, a9, a10, a11, a12, a13, a14, a15, rfl⟩ := list16_cases h16
  intro b hb
  simp only [shiftRows, List.mem_cons, List.not_mem_nil, or_false] at hb
  rcases hb with rfl|rfl|rfl|rfl|rfl|rfl|rfl|rfl|rfl|rfl|rfl|rfl|rfl|rfl|rfl|rfl <;> exact h _ (by simp)

theorem valid16_shiftRows {st : List Nat} (h : Valid16 st) : Valid16 (shiftRows st) :=
  ⟨shiftRows_length h.1, validBytes_shiftRows h.1 h.2⟩

theorem invMixColumns_mixColumns {st : List Nat} (hv : Valid16 st) :
    invMixColumns (mixColumns st) = st := by
  obtain ⟨hlen, hbytes⟩ := hv
  obtain ⟨a0, a1, a2, a3, a4, a5, a6, a7, a8, a9, a10, a11, a12, a13, a14, a15, rfl⟩ := list16_cases hlen
  have h0 : a0 < 256 := hbytes _ (by simp)
  have h1 : a1 < 256 := hbytes _ (by simp)
  have h2 : a2 < 256 := hbytes _ (by simp)
  have h3 : a3 < 256 := hbytes _ (by simp)
  have h4 : a4 < 256 := hbytes _ (by simp)
  have h5 : a5 < 256 := hbytes _ (by simp)
  have h6 : a6 < 256 := hbytes _ (by simp)
  have h7 : a7 < 256 := hbytes _ (by simp)
  have h8 : a8 < 256 := hbytes _ (by simp)
  have h9 : a9 < 256 := hbytes _ (by simp)
  have h10 : a10 < 256 := hbytes _ (by simp)
  have h11 : a11 < 256 := hbytes _ (by simp)
  have h12 : a12 < 256 := hbytes _ (by simp)
  have h13 : a13 < 256 := hbytes _ (by simp)
  have h14 : a14 < 256 := hbytes _ (by simp)
  have h15 : a15 < 256 := hbytes _ (by simp)
  have m1 : imc4 (mc4 (a0, a1, a2, a3)) = (a0, a1, a2, a3) := imc4_mc4 ⟨h0, h1, h2, h3⟩
  have m2 : imc4 (mc4 (a4, a5, a6, a7)) = (a4, a5, a6, a7) := imc4_mc4 ⟨h4, h5, h6, h7⟩
  have m3 : imc4 (mc4 (a8, a9, a10, a11)) = (a8, a9, a10, a11) := imc4_mc4 ⟨h8, h9, h10, h11⟩
  have m4 : imc4 (mc4 (a12, a13, a14, a15)) = (a12, a13, a14, a15) :=
    imc4_mc4 ⟨h12, h13, h14, h15⟩
  simp only [mixColumns, invMixColumns, Prod.mk.eta]
  rw [m1, m2, m3, m4]

theorem mixColumns_length {st : List Nat} (h : st.length = 16) :
    (mixColumns st).length = 16 := by
  obtain ⟨a0, a1, a2, a3, a4, a5, a6, a7, a8, a9, a10, a11, a12, a13, a14, a15, rfl⟩ := list16_cases h
  rfl

theorem validBytes_mixColumns {st : List Nat} (h16 : st.length = 16) (h : ValidBytes st) :
    ValidBytes (mixColumns st) := by
  obtain ⟨a0, a1, a2, a3, a4, a5, a6, a7, a8, a9, a10, a11, a12, a13, a14, a15, rfl⟩ := list16_cases h16
  have h0 : a0 < 256 := h _ (by simp)
  have h1 : a1 < 256 := h _ (by simp)
  have h2 : a2 < 256 := h _ (by simp)
  have h3 : a3 < 256 := h _ (by simp)
  have h4 : a4 < 256 := h _ (by simp)
  have h5 : a5 < 256 := h _ (by simp)
  have h6 : a6 < 256 := h _ (by simp)
  have h7 : a7 < 256 := h _ (by simp)
  have h8 : a8 < 256 := h _ (by simp)
  have h9 : a9 < 256 := h _ (by simp)
  have h10 : a10 < 256 := h _ (by simp)
  have h11 : a11 < 256 := h _ (by simp)
  have h12 : a12 < 256 := h _ (by simp)
  have h13 : a13 < 256 := h _ (by simp)
  have h14 : a14 < 256 := h _ (by simp)
  have h15 : a15 < 256 := h _ (by simp)
  have c1 := mc4_valid (u := (a0, a1, a2, a3)) ⟨h0, h1, h2, h3⟩
  have c2 := mc4_valid (u := (a4, a5, a6, a7)) ⟨h4, h5, h6, h7⟩
  have c3 := mc4_valid (u := (a8, a9, a10, a11)) ⟨h8, h9, h10, h11⟩
  have c4 := mc4_valid (u := (a12, a13, a14, a15)) ⟨h12, h13, h14, h15⟩
  intro b hb
  simp only [mixColumns, List.mem_cons, List.not_mem_nil, or_false] at hb
  rcases hb with rfl|rfl|rfl|rfl|rfl|rfl|rfl|rfl|rfl|rfl|rfl|rfl|rfl|rfl|rfl|rfl <;>
    first
      | exact c1.1 | exact c1.2.1 | exact c1.2.2.1 | exact c1.2.2.2
      | exact c2.1 | exact c2.2.1 | exact c2.2.2.1 | exact c2.2.2.2
      | exact c3.1 | exact c3.2.1 | exact c3.2.2.1 | exact c3.2.2.2
      | exact c4.1 | exact c4.2.1 | exact c4.2.2.1 | exact c4.2.2.2

theorem valid16_mixColumns {st : List Nat} (h : Valid16 st) : Valid16 (mixColumns st) :=
  ⟨mixColumns_length h.1, validBytes_mixColumns h.1 h.2⟩

theorem validBytes_zipxor : ∀ st k : List Nat, ValidBytes st → ValidBytes k →
    ValidBytes (List.zipWith (fun a b => a ^^^ b) st k) := by
  intro st
  induction st with
  | nil => intro k _ _ b hb; simp at hb
  | cons x t ih =>
    intro k hst hk b hb
    cases k with
    | nil => simp at hb
    | cons y u =>
      rw [List.zipWith_cons_cons] at hb
      rcases List.mem_cons.mp hb with rfl | hb2
      · exact xor_lt_256 (hst x (by simp)) (hk y (by simp))
      · exact ih u (fun z hz => hst z (by simp [hz])) (fun z hz => hk z (by simp [hz])) b hb2

theorem addRoundKey_length {k st : List Nat} (hk : k.length = 16) (hst : st.length = 16) :
    (addRoundKey k st).length = 16 := by
  simp [addRoundKey, hk, hst]

theorem valid16_addRoundKey {k st : List Nat} (hk : Valid16 k) (hst : Valid16 st) :
    Valid16 (addRoundKey k st) :=
  ⟨addRoundKey_length hk.1 hst.1, validBytes_zipxor st k hst.2 hk.2⟩

theorem addRoundKey_cancel : ∀ st k : List Nat, st.length ≤ k.length →
    addRoundKey k (addRoundKey k st) = st := by
  intro st
  induction st with
  | nil => intro k _; rfl
  | cons x t ih =>
    intro k hlen
    cases k with
    | nil => simp at hlen
    | cons y u =>
      show (x ^^^ y ^^^ y) :: List.zipWith _ (List.zipWith _ t u) u = x :: t
      rw [Nat.xor_cancel_right]
      have := ih u (by simp at hlen; omega)
      rw [addRoundKey, addRoundKey] at this
      rw [this]

/-! ## AES-128 key schedule and block cipher -/

/-- One step of the AES-128 key schedule: derive the next 16-byte round key
from the previous one and the round constant `rc`. -/
def nextRoundKey (rc : Nat) (k : List Nat) : List Nat :=
  match k with
  | [a0, a1, a2, a3, a4, a5, a6, a7, a8, a9, a10, a11, a12, a13, a14, a15] =>
    [a0 ^^^ sbox a13 ^^^ rc, a1 ^^^ sbox a14, a2 ^^^ sbox a15, a3 ^^^ sbox a12,
     a4 ^^^ (a0 ^^^ sbox a13 ^^^ rc), a5 ^^^ (a1 ^^^ sbox a14),
     a6 ^^^ (a2 ^^^ sbox a15), a7 ^^^ (a3 ^^^ sbox a12),
     a8 ^^^ (a4 ^^^ (a0 ^^^ sbox a13 ^^^ rc)), a9 ^^^ (a5 ^^^ (a1 ^^^ sbox a14)),
     a10 ^^^ (a6 ^^^ (a2 ^^^ sbox a15)), a11 ^^^ (a7 ^^^ (a3 ^^^ sbox a12)),
     a12 ^^^ (a8 ^^^ (a4 ^^^ (a0 ^^^ sbox a13 ^^^ rc))),
     a13 ^^^ (a9 ^^^ (a5 ^^^ (a1 ^^^ sbox a14))),
     a14 ^^^ (a10 ^^^ (a6 ^^^ (a2 ^^^ sbox a15))),
     a15 ^^^ (a11 ^^^ (a7 ^^^ (a3 ^^^ sbox a12)))]
  | l => l

theorem valid16_nextRoundKey {k : List Nat} {r : Nat} (hrc : r < 256) (h : Valid16 k) :
    Valid16 (nextRoundKey r k) := by
  obtain ⟨hlen, hbytes⟩ := h
  obtain ⟨a0, a1, a2, a3, a4, a5, a6, a7, a8, a9, a10, a11, a12, a13, a14, a15, rfl⟩ := list16_cases hlen
  have h0 : a0 < 256 := hbytes _ (by simp)
  have h1 : a1 < 256 := hbytes _ (by simp)
  have h2 : a2 < 256 := hbytes _ (by simp)
  have h3 : a3 < 256 := hbytes _ (by simp)
  have h4 : a4 < 256 := hbytes _ (by simp)
  have h5 : a5 < 256 := hbytes _ (by simp)
  have h6 : a6 < 256 := hbytes _ (by simp)
  have h7 : a7 < 256 := hbytes _ (by simp)
  have h8 : a8 < 256 := hbytes _ (by simp)
  have h9 : a9 < 256 := hbytes _ (by simp)
  have h10 : a10 < 256 := hbytes _ (by simp)
  have h11 : a11 < 256 := hbytes _ (by simp)
  have h12 : a12 < 256 := hbytes _ (by simp)
  have h13 : a13 < 256 := hbytes _ (by simp)
  have h14 : a14 < 256 := hbytes _ (by simp)
  have h15 : a15 < 256 := hbytes _ (by simp)
  have s12 : sbox a12 < 256 := sbox_lt _ h12
  have s13 : sbox a13 < 256 := sbox_lt _ h13
  have s14 : sbox a14 < 256 := sbox_lt _ h14
  have s15 : sbox a15 < 256 := sbox_lt _ h15
  refine ⟨rfl, ?_⟩
  intro b hb
  simp only [nextRoundKey, List.mem_cons, List.not_mem_nil, or_false] at hb
  rcases hb with rfl|rfl|rfl|rfl|rfl|rfl|rfl|rfl|rfl|rfl|rfl|rfl|rfl|rfl|rfl|rfl <;>
    (repeat
      first
        | assumption
        | exact xor_lt_256 (by assumption) (by assumption)
        | apply xor_lt_256 <;> [skip; assumption]
        | apply xor_lt_256 <;> [assumption; skip])

/-- One middle encryption round. -/
def encRound (k st : List Nat) : List Nat := addRoundKey k (mixColumns (shiftRows (subBytes st)))

/-- The final encryption round (no MixColumns). -/
def encFinalRound (k st : List Nat) : List Nat := addRoundKey k (shiftRows (subBytes st))

/-- One middle decryption round (inverse of `encRound`). -/
def decRound (k st : List Nat) : List Nat :=
  invSubBytes (invShiftRows (invMixColumns (addRoundKey k st)))

/-- The opening decryption step (inverse of `encFinalRound`). -/
def decFinalInit (k st : List Nat) : List Nat := invSubBytes (invShiftRows (addRoundKey k st))

theorem valid16_encRound {k st : List Nat} (hk : Valid16 k) (hst : Valid16 st) :
    Valid16 (encRound k st) :=
  valid16_addRoundKey hk (valid16_mixColumns (valid16_shiftRows (valid16_subBytes hst)))

theorem valid16_encFinalRound {k st : List Nat} (hk : Valid16 k) (hst : Valid16 st) :
    Valid16 (encFinalRound k st) :=
  valid16_addRoundKey hk (valid16_shiftRows (valid16_subBytes hst))

theorem decFinalInit_encFinalRound {k st : List Nat} (hk : Valid16 k) (hst : Valid16 st) :
    decFinalInit k (encFinalRound k st) = st := by
  have hlen : (shiftRows (subBytes st)).length ≤ k.length := by
    rw [(valid16_shiftRows (valid16_subBytes hst)).1, hk.1]
  rw [decFinalInit, encFinalRound, addRoundKey_cancel _ _ hlen,
    invShiftRows_shiftRows (by rw [subBytes_length, hst.1]), invSubBytes_subBytes hst.2]

theorem decRound_encRound {k st : List Nat} (hk : Valid16 k) (hst : Valid16 st) :
    decRound k (encRound k st) = st := by
  have hlen : (mixColumns (shiftRows (subBytes st))).length ≤ k.length := by
    rw [(valid16_mixColumns (valid16_shiftRows (valid16_subBytes hst))).1, hk.1]
  rw [decRound, encRound, addRoundKey_cancel _ _ hlen,
    invMixColumns_mixColumns (valid16_shiftRows (valid16_subBytes hst)),
    invShiftRows_shiftRows (by rw [subBytes_length, hst.1]), invSubBytes_subBytes hst.2]

/-- AES-128 block encryption (FIPS-197 Cipher). -/
def aesEncryptBlock (key block : List Nat) : List Nat :=
  let k1 := nextRoundKey 1 key
  let k2 := nextRoundKey 2 k1
  let k3 := nextRoundKey 4 k2
  let k4 := nextRoundKey 8 k3
  let k5 := nextRoundKey 16 k4
  let k6 := nextRoundKey 32 k5
  let k7 := nextRoundKey 64 k6
  let k8 := nextRoundKey 128 k7
  let k9 := nextRoundKey 27 k8
  let k10 := nextRoundKey 54 k9
  encFinalRound k10 (encRound k9 (encRound k8 (encRound k7 (encRound k6 (encRound k5
    (encRound k4 (encRound k3 (encRound k2 (encRound k1 (addRoundKey key block))))))))))

/-- AES-128 block decryption (FIPS-197 InvCipher). -/
def aesDecryptBlock (key block : List Nat) : List Nat :=
  let k1 := nextRoundKey 1 key
  let k2 := nextRoundKey 2 k1
  let k3 := nextRoundKey 4 k2
  let k4 := nextRoundKey 8 k3
  let k5 := nextRoundKey 16 k4
  let k6 := nextRoundKey 32 k5
  let k7 := nextRoundKey 64 k6
  let k8 := nextRoundKey 128 k7
  let k9 := nextRoundKey 27 k8
  let k10 := nextRoundKey 54 k9
  addRoundKey key (decRound k1 (decRound k2 (decRound k3 (decRound k4 (decRound k5
    (decRound k6 (decRound k7 (decRound k8 (decRound k9 (decFinalInit k10 block))))))))))

/-- AES-128 decryption inverts encryption on valid keys and blocks. -/
theorem aesDecryptBlock_aesEncryptBlock {key block : List Nat} (hkey : Valid16 key)
    (hblock : Valid16 block) : aesDecryptBlock key (aesEncryptBlock key block) = block := by
  have hk0 : Valid16 key := hkey
  have hk1 : Valid16 (nextRoundKey 1 key) := valid16_nextRoundKey (by omega) hk0
  have hk2 : Valid16 (nextRoundKey 2 (nextRoundKey 1 key)) := valid16_nextRoundKey (by omega) hk1
  have hk3 : Valid16 (nextRoundKey 4 (nextRoundKey 2 (nextRoundKey 1 key))) := valid16_nextRoundKey (by omega) hk2
  have hk4 : Valid16 (nextRoundKey 8 (nextRoundKey 4 (nextRoundKey 2 (nextRoundKey 1 key)))) := valid16_nextRoundKey (by omega) hk3
  have hk5 : Valid16 (nextRoundKey 16 (nextRoundKey 8 (nextRoundKey 4 (nextRoundKey 2 (nextRoundKey 1 key))))) := valid16_nextRoundKey (by omega) hk4
  have hk6 : Valid16 (nextRoundKey 32 (nextRoundKey 16 (nextRoundKey 8 (nextRoundKey 4 (nextRoundKey 2 (nextRoundKey 1 key)))))) := valid16_nextRoundKey (by omega) hk5
  have hk7 : Valid16 (nextRoundKey 64 (nextRoundKey 32 (nextRoundKey 16 (nextRoundKey 8 (nextRoundKey 4 (nextRoundKey 2 (nextRoundKey 1 key))))))) := valid16_nextRoundKey (by omega) hk6
  have hk8 : Valid16 (nextRoundKey 128 (nextRoundKey 64 (nextRoundKey 32 (nextRoundKey 16 (nextRoundKey 8 (nextRoundKey 4 (nextRoundKey 2 (nextRoundKey 1 key)))))))) := valid16_nextRoundKey (by omega) hk7
  have hk9 : Valid16 (nextRoundKey 27 (nextRoundKey 128 (nextRoundKey 64 (nextRoundKey 32 (nextRoundKey 16 (nextRoundKey 8 (nextRoundKey 4 (nextRoundKey 2 (nextRoundKey 1 key))))))))) := valid16_nextRoundKey (by omega) hk8
  have hk10 : Valid16 (nextRoundKey 54 (nextRoundKey 27 (nextRoundKey 128 (nextRoundKey 64 (nextRoundKey 32 (nextRoundKey 16 (nextRoundKey 8 (nextRoundKey 4 (nextRoundKey 2 (nextRoundKey 1 key)))))))))) := valid16_nextRoundKey (by omega) hk9
  have hs0 : Valid16 (addRoundKey key block) := valid16_addRoundKey hkey hblock
  have hs1 : Valid16 (encRound (nextRoundKey 1 key) (addRoundKey key block)) := valid16_encRound hk1 hs0
  have hs2 : Valid16 (encRound (nextRoundKey 2 (nextRoundKey 1 key)) (encRound (nextRoundKey 1 key) (addRoundKey key block))) := valid16_encRound hk2 hs1
  have hs3 : Valid16 (encRound (nextRoundKey 4 (nextRoundKey 2 (nextRoundKey 1 key))) (encRound (nextRoundKey 2 (nextRoundKey 1 key)) (encRound (nextRoundKey 1 key) (addRoundKey key block)))) := valid16_encRound hk3 hs2
  have hs4 : Valid16 (encRound (nextRoundKey 8 (nextRoundKey 4 (nextRoundKey 2 (nextRoundKey 1 key)))) (encRound (nextRoundKey 4 (nextRoundKey 2 (nextRoundKey 1 key))) (encRound (nextRoundKey 2 (nextRoundKey 1 key)) (encRound (nextRoundKey 1 key) (addRoundKey key block))))) := valid16_encRound hk4 hs3
  have hs5 : Valid16 (encRound (nextRoundKey 16 (nextRoundKey 8 (nextRoundKey 4 (nextRoundKey 2 (nextRoundKey 1 key))))) (encRound (nextRoundKey 8 (nextRoundKey 4 (nextRoundKey 2 (nextRoundKey 1 key)))) (encRound (nextRoundKey 4 (nextRoundKey 2 (nextRoundKey 1 key))) (encRound (nextRoundKey 2 (nextRoundKey 1 key)) (encRound (nextRoundKey 1 key) (addRoundKey key block)))))) := valid16_encRound hk5 hs4
  have hs6 : Valid16 (encRound (nextRoundKey 32 (nextRoundKey 16 (nextRoundKey 8 (nextRoundKey 4 (nextRoundKey 2 (nextRoundKey 1 key)))))) (encRound (nextRoundKey 16 (nextRoundKey 8 (nextRoundKey 4 (nextRoundKey 2 (nextRoundKey 1 key))))) (encRound (nextRoundKey 8 (nextRoundKey 4 (nextRoundKey 2 (nextRoundKey 1 key)))) (encRound (nextRoundKey 4 (nextRoundKey 2 (nextRoundKey 1 key))) (encRound (nextRoundKey 2 (nextRoundKey 1 key)) (encRound (nextRoundKey 1 key) (addRoundKey key block))))))) := valid16_encRound hk6 hs5
  have hs7 : Valid16 (encRound (nextRoundKey 64 (nextRoundKey 32 (nextRoundKey 16 (nextRoundKey 8 (nextRoundKey 4 (nextRoundKey 2 (nextRoundKey 1 key))))))) (encRound (nextRoundKey 32 (nextRoundKey 16 (nextRoundKey 8 (nextRoundKey 4 (nextRoundKey 2 (nextRoundKey 1 key)))))) (encRound (nextRoundKey 16 (nextRoundKey 8 (nextRoundKey 4 (nextRoundKey 2 (nextRoundKey 1 key))))) (encRound (nextRoundKey 8 (nextRoundKey 4 (nextRoundKey 2 (nextRoundKey 1 key)))) (encRound (nextRoundKey 4 (nextRoundKey 2 (nextRoundKey 1 key))) (encRound (nextRoundKey 2 (nextRoundKey 1 key)) (encRound (nextRoundKey 1 key) (addRoundKey key block)))))))) := valid16_encRound hk7 hs6
  have hs8 : Valid16 (encRound (nextRoundKey 128 (nextRoundKey 64 (nextRoundKey 32 (nextRoundKey 16 (nextRoundKey 8 (nextRoundKey 4 (nextRoundKey 2 (nextRoundKey 1 key)))))))) (encRound (nextRoundKey 64 (nextRoundKey 32 (nextRoundKey 16 (nextRoundKey 8 (nextRoundKey 4 (nextRoundKey 2 (nextRoundKey 1 key))))))) (encRound (nextRoundKey 32 (nextRoundKey 16 (nextRoundKey 8 (nextRoundKey 4 (nextRoundKey 2 (nextRoundKey 1 key)))))) (encRound (nextRoundKey 16 (nextRoundKey 8 (nextRoundKey 4 (nextRoundKey 2 (nextRoundKey 1 key))))) (encRound (nextRoundKey 8 (nextRoundKey 4 (nextRoundKey 2 (nextRoundKey 1 key)))) (encRound (nextRoundKey 4 (nextRoundKey 2 (nextRoundKey 1 key))) (encRound (nextRoundKey 2 (nextRoundKey 1 key)) (encRound (nextRoundKey 1 key) (addRoundKey key block))))))))) := valid16_encRound hk8 hs7
  have hs9 : Valid16 (encRound (nextRoundKey 27 (nextRoundKey 128 (nextRoundKey 64 (nextRoundKey 32 (nextRoundKey 16 (nextRoundKey 8 (nextRoundKey 4 (nextRoundKey 2 (nextRoundKey 1 key))))))))) (encRound (nextRoundKey 128 (nextRoundKey 64 (nextRoundKey 32 (nextRoundKey 16 (nextRoundKey 8 (nextRoundKey 4 (nextRoundKey 2 (nextRoundKey 1 key)))))))) (encRound (nextRoundKey 64 (nextRoundKey 32 (nextRoundKey 16 (nextRoundKey 8 (nextRoundKey 4 (nextRoundKey 2 (nextRoundKey 1 key))))))) (encRound (nextRoundKey 32 (nextRoundKey 16 (nextRoundKey 8 (nextRoundKey 4 (nextRoundKey 2 (nextRoundKey 1 key)))))) (encRound (nextRoundKey 16 (nextRoundKey 8 (nextRoundKey 4 (nextRoundKey 2 (nextRoundKey 1 key))))) (encRound (nextRoundKey 8 (nextRoundKey 4 (nextRoundKey 2 (nextRoundKey 1 key)))) (encRound (nextRoundKey 4 (nextRoundKey 2 (nextRoundKey 1 key))) (encRound (nextRoundKey 2 (nextRoundKey 1 key)) (encRound (nextRoundKey 1 key) (addRoundKey key block)))))))))) := valid16_encRound hk9 hs8
  simp only [aesEncryptBlock, aesDecryptBlock]
  rw [decFinalInit_encFinalRound hk10 hs9,
    decRound_encRound hk9 hs8,
    decRound_encRound hk8 hs7,
    decRound_encRound hk7 hs6,
    decRound_encRound hk6 hs5,
    decRound_encRound hk5 hs4,
    decRound_encRound hk4 hs3,
    decRound_encRound hk3 hs2,
    decRound_encRound hk2 hs1,
    decRound_encRound hk1 hs0,
    addRoundKey_cancel block key (by rw [hblock.1, hkey.1])]

/-! ## SHA-256, HMAC and PBKDF2

Executable model of SHA-256 (FIPS 180-4), HMAC (RFC 2104) and PBKDF2
(RFC 2898), matching `PBKDF2HMAC(SHA256, length=16, salt, iterations=1000)`
from the `cryptography` package.  Words are naturals reduced modulo `2 ^ 32`.
-/

/-- The SHA-256 round constants. -/
def sha256K : List Nat := [
  1116352408, 1899447441, 3049323471, 3921009573, 961987163, 1508970993, 2453635748, 2870763221,
  3624381080, 310598401, 607225278, 1426881987, 1925078388, 2162078206, 2614888103, 3248222580,
  3835390401, 4022224774, 264347078, 604807628, 770255983, 1249150122, 1555081692, 1996064986,
  2554220882, 2821834349, 2952996808, 3210313671, 3336571891, 3584528711, 113926993, 338241895,
  666307205, 773529912, 1294757372, 1396182291, 1695183700, 1986661051, 2177026350, 2456956037,
  2730485921, 2820302411, 3259730800, 3345764771, 3516065817, 3600352804, 4094571909, 275423344,
  430227734, 506948616, 659060556, 883997877, 958139571, 1322822218, 1537002063, 1747873779,
  1955562222, 2024104815, 2227730452, 2361852424, 2428436474, 2756734187, 3204031479, 3329325298]

/-- Right rotation of a 32-bit word. -/
def rotr32 (n x : Nat) : Nat := (x >>> n) ||| (x <<< (32 - n)) % 4294967296

/-- Big-endian words from bytes, four at a time. -/
def toWordsBE : List Nat → List Nat
  | b0 :: b1 :: b2 :: b3 :: rest =>
    (b0 * 16777216 + b1 * 65536 + b2 * 256 + b3) :: toWordsBE rest
  | _ => []

/-- Big-endian bytes of a 32-bit word. -/
def wordToBytesBE (w : Nat) : List Nat :=
  [w / 16777216 % 256, w / 65536 % 256, w / 256 % 256, w % 256]

/-- Big-endian eight-byte rendering of the bit length. -/
def len64be (n : Nat) : List Nat :=
  [n / 72057594037927936 % 256, n / 281474976710656 % 256, n / 1099511627776 % 256,
   n / 4294967296 % 256, n / 16777216 % 256, n / 65536 % 256, n / 256 % 256, n % 256]

/-- SHA-256 message padding: `0x80`, zeros to 56 mod 64, 64-bit bit length. -/
def sha256pad (msg : List Nat) : List Nat :=
  msg ++ 128 :: List.replicate ((55 - msg.length % 64 + 64) % 64) 0 ++ len64be (msg.length * 8)

/-- Message-schedule extension: grow 16 words to 64. -/
def schedAux : Nat → List Nat → List Nat
  | 0, ws => ws
  | f + 1, ws =>
    let n := ws.length
    let x15 := ws.getD (n - 15) 0
    let x2 := ws.getD (n - 2) 0
    let s0 := rotr32 7 x15 ^^^ rotr32 18 x15 ^^^ (x15 >>> 3)
    let s1 := rotr32 17 x2 ^^^ rotr32 19 x2 ^^^ (x2 >>> 10)
    schedAux f (ws ++ [(ws.getD (n - 16) 0 + s0 + ws.getD (n - 7) 0 + s1) % 4294967296])

/-- The eight working registers. -/
abbrev Regs8 := Nat × Nat × Nat × Nat × Nat × Nat × Nat × Nat

/-- One SHA-256 compression round; `kw` is the round constant plus the
schedule word. -/
def sha256Round (st : Regs8) (kw : Nat) : Regs8 :=
  match st with
  | (a, b, c, d, e, f, g, h) =>
    let s1 := rotr32 6 e ^^^ rotr32 11 e ^^^ rotr32 25 e
    let ch := e &&& f ^^^ (4294967295 - e) &&& g
    let t1 := (h + s1 + ch + kw) % 4294967296
    let s0 := rotr32 2 a ^^^ rotr32 13 a ^^^ rotr32 22 a
    let mj := a &&& b ^^^ a &&& c ^^^ b &&& c
    let t2 := (s0 + mj) % 4294967296
    ((t1 + t2) % 4294967296, a, b, c, (d + t1) % 4294967296, e, f, g)

/-- Compress one 16-word block into the hash state. -/
def sha256Compress (hs : Regs8) (ws : List Nat) : Regs8 :=
  let ext := schedAux 48 ws
  let kws := List.zipWith (fun k w => (k + w) % 4294967296) sha256K ext
  match hs with
  | (h0, h1, h2, h3, h4, h5, h6, h7) =>
    match kws.foldl sha256Round (h0, h1, h2, h3, h4, h5, h6, h7) with
    | (a, b, c, d, e, f, g, h) =>
      ((h0 + a) % 4294967296, (h1 + b) % 4294967296, (h2 + c) % 4294967296,
       (h3 + d) % 4294967296, (h4 + e) % 4294967296, (h5 + f) % 4294967296,
       (h6 + g) % 4294967296, (h7 + h) % 4294967296)

/-- Fold the compression function over 16-word blocks. -/
def sha256Blocks : Regs8 → List Nat → Regs8
  | hs, w0 :: w1 :: w2 :: w3 :: w4 :: w5 :: w6 :: w7 :: w8 :: w9 :: w10 :: w11 :: w12 :: w13 :: w14 :: w15 :: rest =>
    sha256Blocks (sha256Compress hs [w0, w1, w2, w3, w4, w5, w6, w7, w8, w9, w10, w11, w12, w13, w14, w15]) rest
  | hs, _ => hs

/-- Big-endian bytes of the eight hash registers. -/
def regsToBytes (r : Regs8) : List Nat :=
  wordToBytesBE r.1 ++ wordToBytesBE r.2.1 ++ wordToBytesBE r.2.2.1 ++
    wordToBytesBE r.2.2.2.1 ++ wordToBytesBE r.2.2.2.2.1 ++ wordToBytesBE r.2.2.2.2.2.1 ++
    wordToBytesBE r.2.2.2.2.2.2.1 ++ wordToBytesBE r.2.2.2.2.2.2.2

/-- SHA-256 of a byte string. -/
def sha256 (msg : List Nat) : List Nat :=
  regsToBytes (sha256Blocks
    (1779033703, 3144134277, 1013904242, 2773480762,
     1359893119, 2600822924, 528734635, 1541459225)
    (toWordsBE (sha256pad msg)))

/-- HMAC-SHA256. -/
def hmacSha256 (key msg : List Nat) : List Nat :=
  let k0 := if 64 < key.length then sha256 key else key
  let kp := k0 ++ List.replicate (64 - k0.length) 0
  sha256 (kp.map (fun b => b ^^^ 92) ++ sha256 (kp.map (fun b => b ^^^ 54) ++ msg))

/-- The iteration loop of PBKDF2: repeatedly re-HMAC and accumulate. -/
def pbkdf2Loop (pass : List Nat) : Nat → List Nat → List Nat → List Nat
  | 0, _, acc => acc
  | n + 1, u, acc =>
    let u2 := hmacSha256 pass u
    pbkdf2Loop pass n u2 (List.zipWith (fun a b => a ^^^ b) acc u2)

/-- PBKDF2-HMAC-SHA256 with an output no longer than one hash block (the
client derives 16 bytes). -/
def pbkdf2Sha256 (pass salt : List Nat) (iters dkLen : Nat) : List Nat :=
  let u1 := hmacSha256 pass (salt ++ [0, 0, 0, 1])
  (pbkdf2Loop pass (iters - 1) u1 u1).take dkLen

theorem validBytes_wordToBytesBE (w : Nat) : ValidBytes (wordToBytesBE w) := by
  intro b hb
  simp only [wordToBytesBE, List.mem_cons, List.not_mem_nil, or_false] at hb
  rcases hb with rfl | rfl | rfl | rfl <;> omega

theorem sha256_length (msg : List Nat) : (sha256 msg).length = 32 := by
  simp [sha256, regsToBytes, wordToBytesBE]

theorem validBytes_sha256 (msg : List Nat) : ValidBytes (sha256 msg) := by
  rw [sha256, regsToBytes]
  refine validBytes_append (validBytes_append (validBytes_append (validBytes_append
    (validBytes_append (validBytes_append (validBytes_append ?_ ?_) ?_) ?_) ?_) ?_) ?_) ?_ <;>
    apply validBytes_wordToBytesBE

theorem hmacSha256_length (key msg : List Nat) : (hmacSha256 key msg).length = 32 := by
  rw [hmacSha256]
  apply sha256_length

theorem validBytes_hmacSha256 (key msg : List Nat) : ValidBytes (hmacSha256 key msg) := by
  rw [hmacSha256]
  apply validBytes_sha256

theorem pbkdf2Loop_length (pass : List Nat) :
    ∀ n u acc, acc.length = 32 → (pbkdf2Loop pass n u acc).length = 32 := by
  intro n
  induction n with
  | zero => intro u acc h; exact h
  | succ n ih =>
    intro u acc h
    rw [pbkdf2Loop]
    apply ih
    simp [h, hmacSha256_length]

theorem validBytes_pbkdf2Loop (pass : List Nat) :
    ∀ n u acc, ValidBytes acc → ValidBytes (pbkdf2Loop pass n u acc) := by
  intro n
  induction n with
  | zero => intro u acc h; exact h
  | succ n ih =>
    intro u acc h
    rw [pbkdf2Loop]
    exact ih _ _ (validBytes_zipxor _ _ h (validBytes_hmacSha256 _ _))

theorem pbkdf2Sha256_length (pass salt : List Nat) (iters : Nat) {dkLen : Nat}
    (h : dkLen ≤ 32) : (pbkdf2Sha256 pass salt iters dkLen).length = dkLen := by
  rw [pbkdf2Sha256, List.length_take,
    pbkdf2Loop_length pass _ _ _ (hmacSha256_length _ _)]
  omega

theorem validBytes_pbkdf2Sha256 (pass salt : List Nat) (iters dkLen : Nat) :
    ValidBytes (pbkdf2Sha256 pass salt iters dkLen) := by
  rw [pbkdf2Sha256]
  exact validBytes_take (validBytes_pbkdf2Loop pass _ _ _ (validBytes_hmacSha256 _ _)) _

theorem valid16_aesEncryptBlock {key block : List Nat} (hkey : Valid16 key)
    (hblock : Valid16 block) : Valid16 (aesEncryptBlock key block) := by
  have hk0 : Valid16 key := hkey
  have hk1 := valid16_nextRoundKey (r := 1) (by omega) hk0
  have hk2 := valid16_nextRoundKey (r := 2) (by omega) hk1
  have hk3 := valid16_nextRoundKey (r := 4) (by omega) hk2
  have hk4 := valid16_nextRoundKey (r := 8) (by omega) hk3
  have hk5 := valid16_nextRoundKey (r := 16) (by omega) hk4
  have hk6 := valid16_nextRoundKey (r := 32) (by omega) hk5
  have hk7 := valid16_nextRoundKey (r := 64) (by omega) hk6
  have hk8 := valid16_nextRoundKey (r := 128) (by omega) hk7
  have hk9 := valid16_nextRoundKey (r := 27) (by omega) hk8
  have hk10 := valid16_nextRoundKey (r := 54) (by omega) hk9
  have hs0 : Valid16 (addRoundKey key block) := valid16_addRoundKey hkey hblock
  have hs1 := valid16_encRound hk1 hs0
  have hs2 := valid16_encRound hk2 hs1
  have hs3 := valid16_encRound hk3 hs2
  have hs4 := valid16_encRound hk4 hs3
  have hs5 := valid16_encRound hk5 hs4
  have hs6 := valid16_encRound hk6 hs5
  have hs7 := valid16_encRound hk7 hs6
  have hs8 := valid16_encRound hk8 hs7
  have hs9 := valid16_encRound hk9 hs8
  simp only [aesEncryptBlock]
  exact valid16_encFinalRound hk10 hs9

/-! ## CBC mode

`modes.CBC(iv)` from the `cryptography` package: encryption chains each
plaintext block with the previous ciphertext block (initially the IV) before
the block cipher; decryption reverses it.  The finalizer rejects data whose
length is not a multiple of the block size. -/

/-- Byte-wise exclusive or. -/
def xorBytes (a b : List Nat) : List Nat := List.zipWith (fun x y => x ^^^ y) a b

/-- CBC encryption over 16-byte chunks; `prev` is the IV or the previous
ciphertext block.  The trailing case is unreachable on inputs whose length is
a multiple of 16. -/
def cbcEncryptBlocks : List Nat → List Nat → List Nat → List Nat
  | _, _, [] => []
  | key, prev, b0 :: b1 :: b2 :: b3 :: b4 :: b5 :: b6 :: b7 :: b8 :: b9 :: b10 :: b11 :: b12 :: b13 :: b14 :: b15 :: rest =>
    aesEncryptBlock key (xorBytes [b0, b1, b2, b3, b4, b5, b6, b7, b8, b9, b10, b11, b12, b13, b14, b15] prev) ++
      cbcEncryptBlocks key (aesEncryptBlock key (xorBytes [b0, b1, b2, b3, b4, b5, b6, b7, b8, b9, b10, b11, b12, b13, b14, b15] prev)) rest
  | _, _, l => l

/-- CBC decryption over 16-byte chunks. -/
def cbcDecryptBlocks : List Nat → List Nat → List Nat → List Nat
  | _, _, [] => []
  | key, prev, c0 :: c1 :: c2 :: c3 :: c4 :: c5 :: c6 :: c7 :: c8 :: c9 :: c10 :: c11 :: c12 :: c13 :: c14 :: c15 :: rest =>
    xorBytes (aesDecryptBlock key [c0, c1, c2, c3, c4, c5, c6, c7, c8, c9, c10, c11, c12, c13, c14, c15]) prev ++
      cbcDecryptBlocks key [c0, c1, c2, c3, c4, c5, c6, c7, c8, c9, c10, c11, c12, c13, c14, c15] rest
  | _, _, l => l

/-- AES-128-CBC encryption of full blocks. -/
def aesCbcEncrypt (key iv data : List Nat) : List Nat := cbcEncryptBlocks key iv data

/-- AES-128-CBC decryption; fails on data that is not a multiple of the block
size, as the `cryptography` decryptor does. -/
def aesCbcDecrypt (key iv ct : List Nat) : Option (List Nat) :=
  if ct.length % 16 ≠ 0 then none
  else some (cbcDecryptBlocks key iv ct)

theorem cbcDecryptBlocks_cons {key prev bl rest : List Nat} (hbl : bl.length = 16) :
    cbcDecryptBlocks key prev (bl ++ rest) =
      xorBytes (aesDecryptBlock key bl) prev ++ cbcDecryptBlocks key bl rest := by
  obtain ⟨c0, c1, c2, c3, c4, c5, c6, c7, c8, c9, c10, c11, c12, c13, c14, c15, rfl⟩ := list16_cases hbl
  rfl

theorem cbcEncryptBlocks_cons {key prev bl rest : List Nat} (hbl : bl.length = 16) :
    cbcEncryptBlocks key prev (bl ++ rest) =
      aesEncryptBlock key (xorBytes bl prev) ++
        cbcEncryptBlocks key (aesEncryptBlock key (xorBytes bl prev)) rest := by
  obtain ⟨b0, b1, b2, b3, b4, b5, b6, b7, b8, b9, b10, b11, b12, b13, b14, b15, rfl⟩ := list16_cases hbl
  rfl

theorem xorBytes_cancel {b p : List Nat} (h : b.length ≤ p.length) :
    xorBytes (xorBytes b p) p = b :=
  addRoundKey_cancel b p h

theorem valid16_xorBytes {a b : List Nat} (ha : Valid16 a) (hb : Valid16 b) :
    Valid16 (xorBytes a b) := by
  refine ⟨?_, validBytes_zipxor a b ha.2 hb.2⟩
  simp [xorBytes, ha.1, hb.1]

/-- CBC decryption inverts CBC encryption chunk by chunk, and encryption
preserves the length. -/
theorem cbc_roundTrip {key : List Nat} (hkey : Valid16 key) :
    ∀ n data prev, data.length = 16 * n → ValidBytes data → Valid16 prev →
      (cbcEncryptBlocks key prev data).length = data.length ∧
        ValidBytes (cbcEncryptBlocks key prev data) ∧
        cbcDecryptBlocks key prev (cbcEncryptBlocks key prev data) = data := by
  intro n
  induction n with
  | zero =>
    intro data prev hlen _ _
    have hd : data = [] := List.eq_nil_of_length_eq_zero (by omega)
    subst hd
    exact ⟨rfl, by intro b hb; simp [cbcEncryptBlocks] at hb, rfl⟩
  | succ n ih =>
    intro data prev hlen hvd hprev
    have hsplit : data = data.take 16 ++ data.drop 16 := (List.take_append_drop 16 data).symm
    have htlen : (data.take 16).length = 16 := by
      rw [List.length_take]
      omega
    have hdlen : (data.drop 16).length = 16 * n := by
      rw [List.length_drop]
      omega
    have hvtake : ValidBytes (data.take 16) := validBytes_take hvd 16
    have hvdrop : ValidBytes (data.drop 16) := validBytes_drop hvd 16
    have hxv : Valid16 (xorBytes (data.take 16) prev) :=
      valid16_xorBytes ⟨htlen, hvtake⟩ hprev
    have hct : Valid16 (aesEncryptBlock key (xorBytes (data.take 16) prev)) :=
      valid16_aesEncryptBlock hkey hxv
    obtain ⟨ihlen, ihval, ihdec⟩ :=
      ih (data.drop 16) (aesEncryptBlock key (xorBytes (data.take 16) prev)) hdlen hvdrop hct
    refine ⟨?_, ?_, ?_⟩
    · conv_lhs => rw [hsplit]
      rw [cbcEncryptBlocks_cons htlen]
      conv_rhs => rw [hsplit]
      simp only [List.length_append, ihlen, hct.1, htlen]
    · have hv2 : ValidBytes (cbcEncryptBlocks key prev (data.take 16 ++ data.drop 16)) := by
        rw [cbcEncryptBlocks_cons htlen]
        exact validBytes_append hct.2 ihval
      rwa [List.take_append_drop] at hv2
    · conv_lhs => rw [hsplit]
      rw [cbcEncryptBlocks_cons htlen, cbcDecryptBlocks_cons hct.1,
        aesDecryptBlock_aesEncryptBlock hkey hxv,
        xorBytes_cancel (b := data.take 16) (p := prev) (by simp [htlen, hprev.1]), ihdec]
      exact hsplit.symm

/-! ## The field cipher of dh_pension_720.py

Model of `_encrypt` / `_decrypt` (lines 69 to 115).  The random salt and IV
drawn by `os.urandom` become explicit parameters; everything else follows the
source line by line: the passphrase is the UTF-8 encoding of the first 32
characters of the session identifier, the key is
`PBKDF2HMAC(SHA256, length=16, salt, iterations=1000)`, the payload is the
PKCS#7-padded UTF-8 plaintext under AES-128-CBC, and the envelope is
`hex(salt) + hex(iv) + base64(ciphertext)`, percent-encoded with
`quote(raw, safe="")`. -/

/-- Key derivation shared by `_encrypt` and `_decrypt`:
`PBKDF2HMAC(SHA256, length=16, salt, 1000).derive(jsessionid[:32].encode())`. -/
def fieldKey (jsessionid : String) (salt : List Nat) : List Nat :=
  pbkdf2Sha256 (utf8Encode (jsessionid.data.take 32)) salt 1000 16

/-- The envelope built by `_encrypt` before percent-encoding:
`salt.hex() + iv.hex() + base64.b64encode(ciphertext)`. -/
def encryptRaw (plaintext jsessionid : String) (salt iv : List Nat) : List Char :=
  hexEncode salt ++ hexEncode iv ++
    b64encode (aesCbcEncrypt (fieldKey jsessionid salt) iv
      (pkcs7pad (utf8Encode plaintext.data)))

/-- The function `_encrypt(plaintext, jsessionid)` with the salt and IV drawn
by `os.urandom(32)` / `os.urandom(16)` made explicit. -/
def _encrypt (plaintext jsessionid : String) (salt iv : List Nat) : String :=
  ⟨pyQuote (encryptRaw plaintext jsessionid salt iv)⟩

/-- The function `_decrypt(enc_text, jsessionid)`: parse
`enc_text[:64]` as the salt, `enc_text[64:96]` as the IV, base64-decode the
remainder, derive the key and undo AES-CBC, PKCS#7 and UTF-8.  Any failing
stage raises in Python and is `none` here. -/
def _decrypt (encText jsessionid : String) : Option String :=
  (hexDecode (encText.data.take 64)).bind fun salt =>
    (hexDecode ((encText.data.drop 64).take 32)).bind fun iv =>
      (b64decode (encText.data.drop 96)).bind fun ct =>
        (aesCbcDecrypt (pbkdf2Sha256 (utf8Encode (jsessionid.data.take 32)) salt 1000 16)
            iv ct).bind fun padded =>
          (pkcs7unpad padded).bind fun data =>
            (utf8Decode data).map fun chars => ⟨chars⟩

/-- The derived field key is a valid 16-byte AES key. -/
theorem valid16_fieldKey (jsessionid : String) (salt : List Nat) :
    Valid16 (fieldKey jsessionid salt) :=
  ⟨pbkdf2Sha256_length _ _ _ (by omega), validBytes_pbkdf2Sha256 _ _ _ _⟩

/-- Decrypting the pre-percent-encoding envelope with the same session
identifier restores the plaintext. -/
theorem decrypt_encryptRaw (plaintext jsessionid : String) {salt iv : List Nat}
    (hsl : salt.length = 32) (hsv : ValidBytes salt)
    (hil : iv.length = 16) (hiv : ValidBytes iv) :
    _decrypt ⟨encryptRaw plaintext jsessionid salt iv⟩ jsessionid = some plaintext := by
  have hkey : Valid16 (fieldKey jsessionid salt) := valid16_fieldKey jsessionid salt
  have hpadlen : (pkcs7pad (utf8Encode plaintext.data)).length =
      16 * ((pkcs7pad (utf8Encode plaintext.data)).length / 16) := by
    have := pkcs7pad_length_mod (utf8Encode plaintext.data)
    omega
  have hpadval : ValidBytes (pkcs7pad (utf8Encode plaintext.data)) :=
    validBytes_pkcs7pad (validBytes_utf8Encode _)
  obtain ⟨hctlen, hctval, hctdec⟩ := cbc_roundTrip hkey _ _ iv hpadlen hpadval ⟨hil, hiv⟩
  have hsaltlen : (hexEncode salt).length = 64 := by rw [hexEncode_length, hsl]
  have hivlen : (hexEncode iv).length = 32 := by rw [hexEncode_length, hil]
  have hassoc : encryptRaw plaintext jsessionid salt iv =
      hexEncode salt ++ (hexEncode iv ++
        b64encode (aesCbcEncrypt (fieldKey jsessionid salt) iv
          (pkcs7pad (utf8Encode plaintext.data)))) := by
    rw [encryptRaw, List.append_assoc]
  have htake64 : (encryptRaw plaintext jsessionid salt iv).take 64 = hexEncode salt := by
    rw [hassoc, ← hsaltlen, List.take_left]
  have hdrop64 : (encryptRaw plaintext jsessionid salt iv).drop 64 =
      hexEncode iv ++ b64encode (aesCbcEncrypt (fieldKey jsessionid salt) iv
        (pkcs7pad (utf8Encode plaintext.data))) := by
    rw [hassoc, ← hsaltlen, List.drop_left]
  have htake32 : ((encryptRaw plaintext jsessionid salt iv).drop 64).take 32 =
      hexEncode iv := by
    rw [hdrop64, ← hivlen, List.take_left]
  have hdrop96 : (encryptRaw plaintext jsessionid salt iv).drop 96 =
      b64encode (aesCbcEncrypt (fieldKey jsessionid salt) iv
        (pkcs7pad (utf8Encode plaintext.data))) := by
    have h96 : (encryptRaw plaintext jsessionid salt iv).drop 96 =
        ((encryptRaw plaintext jsessionid salt iv).drop 64).drop 32 := by
      rw [List.drop_drop]
    rw [h96, hdrop64, List.drop_append_of_le_length (by omega), ← hivlen,
      List.drop_length, List.nil_append]
  have hmod : (cbcEncryptBlocks (fieldKey jsessionid salt) iv
      (pkcs7pad (utf8Encode plaintext.data))).length % 16 = 0 := by
    rw [hctlen]
    exact pkcs7pad_length_mod _
  have hctdec2 : cbcDecryptBlocks
      (pbkdf2Sha256 (utf8Encode (jsessionid.data.take 32)) salt 1000 16) iv
      (cbcEncryptBlocks (fieldKey jsessionid salt) iv
        (pkcs7pad (utf8Encode plaintext.data))) = pkcs7pad (utf8Encode plaintext.data) := hctdec
  rw [_decrypt]
  simp only [htake64, htake32, hdrop96, hexDecode_hexEncode hsv,
    hexDecode_hexEncode hiv, aesCbcEncrypt, b64decode_b64encode hctval, Option.some_bind,
    aesCbcDecrypt]
  rw [if_neg (by omega)]
  simp only [Option.some_bind, hctdec2, pkcs7unpad_pkcs7pad, utf8Decode_utf8Encode]
  rfl

/-! ## Percent-encoding breaks the in-process round trip

`_encrypt` percent-encodes `+`, `/` and `=` from the base64 segment, while
`_decrypt` never percent-decodes; `base64.b64decode` then drops the `%` signs
but keeps the hexadecimal digits, so the ciphertext segment decodes to a byte
string whose length cannot be a multiple of 16 when the ciphertext is one
block. -/

theorem isB64Char_exists {c : Char} (h : isB64Char c = true) :
    ∃ n, n < 64 ∧ b64Char n = c := by
  rw [isB64Char] at h
  have hmem : c ∈ b64Alphabet := List.mem_of_elem_eq_true h
  obtain ⟨i, hc⟩ := List.mem_iff_getElem.mp hmem
  obtain ⟨hi, hc⟩ := hc
  refine ⟨i, by simpa [b64Alphabet] using hi, ?_⟩
  rw [b64Char, List.getD_eq_getElem _ _ hi, hc]

theorem quoteChar_b64_filter : ∀ n < 64,
    1 ≤ ((quoteChar (b64Char n)).filter (fun c => isB64Char c || c == '=')).length ∧
      ((quoteChar (b64Char n)).filter (fun c => isB64Char c || c == '=')).length ≤ 2 ∧
      ∀ x ∈ (quoteChar (b64Char n)).filter (fun c => isB64Char c || c == '='), x ≠ '=' := by
  decide

/-- Filtering the quoted base64 data keeps between one and two characters per
original character and introduces no padding character. -/
theorem filter_pyQuote_b64data : ∀ d : List Char, (∀ c ∈ d, isB64Char c = true) →
    d.length ≤ ((pyQuote d).filter (fun c => isB64Char c || c == '=')).length ∧
      ((pyQuote d).filter (fun c => isB64Char c || c == '=')).length ≤ 2 * d.length ∧
      ∀ x ∈ (pyQuote d).filter (fun c => isB64Char c || c == '='), x ≠ '=' := by
  intro d
  induction d with
  | nil => intro _; exact ⟨by simp [pyQuote], by simp [pyQuote], by simp [pyQuote]⟩
  | cons c tl ih =>
    intro h
    obtain ⟨n, hn, rfl⟩ := isB64Char_exists (h c (List.mem_cons_self ..))
    obtain ⟨ih1, ih2, ih3⟩ := ih (fun x hx => h x (List.mem_cons_of_mem _ hx))
    obtain ⟨q1, q2, q3⟩ := quoteChar_b64_filter n hn
    have hsplit : pyQuote (b64Char n :: tl) = quoteChar (b64Char n) ++ pyQuote tl := rfl
    rw [hsplit, List.filter_append]
    refine ⟨?_, ?_, ?_⟩
    · simp only [List.length_append, List.length_cons]
      omega
    · simp only [List.length_append, List.length_cons]
      omega
    · intro x hx
      rcases List.mem_append.mp hx with hx | hx
      · exact q3 x hx
      · exact ih3 x hx

theorem pyQuote_pad2 : pyQuote (List.replicate 2 '=') = ['%', '3', 'D', '%', '3', 'D'] := by
  decide

theorem filter_pad2 :
    (pyQuote (List.replicate 2 '=')).filter (fun c => isB64Char c || c == '=') =
      ['3', 'D', '3', 'D'] := by
  decide

/-- With the session identifier unchanged, decrypting the percent-encoded
output of `_encrypt` fails whenever the plaintext fits a single AES block:
the base64 padding `==` is percent-encoded into `%3D%3D`, and the lenient
decoder of `_decrypt` either rejects the length or produces a ciphertext that
is no longer a multiple of the block size. -/
theorem decrypt_encrypt_oneBlock_fails (plaintext jsessionid : String) {salt iv : List Nat}
    (hsl : salt.length = 32) (hsv : ValidBytes salt)
    (hil : iv.length = 16) (hiv : ValidBytes iv)
    (hshort : (utf8Encode plaintext.data).length < 16) :
    _decrypt (_encrypt plaintext jsessionid salt iv) jsessionid = none := by
  have hkey : Valid16 (fieldKey jsessionid salt) := valid16_fieldKey jsessionid salt
  have hpadlen : (pkcs7pad (utf8Encode plaintext.data)).length = 16 * 1 := by
    rw [pkcs7pad_length]
    omega
  have hpadval : ValidBytes (pkcs7pad (utf8Encode plaintext.data)) :=
    validBytes_pkcs7pad (validBytes_utf8Encode _)
  obtain ⟨hctlen, hctval, _⟩ := cbc_roundTrip hkey 1 _ iv hpadlen hpadval ⟨hil, hiv⟩
  have hctlen16 : (cbcEncryptBlocks (fieldKey jsessionid salt) iv
      (pkcs7pad (utf8Encode plaintext.data))).length = 16 := by rw [hctlen, hpadlen]
  obtain ⟨d, p, henc, hchars, hple, hdplen, hpval, _⟩ := b64encode_structure hctval
  have hp2 : p = 2 := by rw [hpval, hctlen16]
  have hd22 : d.length = 22 := by
    rw [hctlen16] at hdplen
    omega
  subst hp2
  have hsaltlen : (hexEncode salt).length = 64 := by rw [hexEncode_length, hsl]
  have hivlen : (hexEncode iv).length = 32 := by rw [hexEncode_length, hil]
  have hquote : (_encrypt plaintext jsessionid salt iv).data =
      hexEncode salt ++ (hexEncode iv ++ (pyQuote d ++ pyQuote (List.replicate 2 '='))) := by
    show pyQuote (encryptRaw plaintext jsessionid salt iv) = _
    rw [encryptRaw, show aesCbcEncrypt (fieldKey jsessionid salt) iv
        (pkcs7pad (utf8Encode plaintext.data)) = cbcEncryptBlocks (fieldKey jsessionid salt) iv
        (pkcs7pad (utf8Encode plaintext.data)) from rfl,
      henc, pyQuote_append, pyQuote_append, pyQuote_append,
      pyQuote_hexEncode hsv, pyQuote_hexEncode hiv, List.append_assoc]
  have htake64 : (_encrypt plaintext jsessionid salt iv).data.take 64 = hexEncode salt := by
    rw [hquote, ← hsaltlen, List.take_left]
  have hdrop64 : (_encrypt plaintext jsessionid salt iv).data.drop 64 =
      hexEncode iv ++ (pyQuote d ++ pyQuote (List.replicate 2 '=')) := by
    rw [hquote, ← hsaltlen, List.drop_left]
  have htake32 : ((_encrypt plaintext jsessionid salt iv).data.drop 64).take 32 =
      hexEncode iv := by
    rw [hdrop64, ← hivlen, List.take_left]
  have hdrop96 : (_encrypt plaintext jsessionid salt iv).data.drop 96 =
      pyQuote d ++ pyQuote (List.replicate 2 '=') := by
    have h96 : (_encrypt plaintext jsessionid salt iv).data.drop 96 =
        ((_encrypt plaintext jsessionid salt iv).data.drop 64).drop 32 := by
      rw [List.drop_drop]
    rw [h96, hdrop64, List.drop_append_of_le_length (by omega), ← hivlen,
      List.drop_length, List.nil_append]
  obtain ⟨hf1, hf2, hf3⟩ := filter_pyQuote_b64data d (fun c hc => (hchars c hc).1)
  set f := (pyQuote d).filter (fun c => isB64Char c || c == '=') with hfdef
  have hfilterAll : (pyQuote d ++ pyQuote (List.replicate 2 '=')).filter
      (fun c => isB64Char c || c == '=') = f ++ ['3', 'D', '3', 'D'] := by
    rw [List.filter_append, filter_pad2]
  have hnopad : ∀ x ∈ f ++ ['3', 'D', '3', 'D'], (x ≠ '=' : Prop) := by
    intro x hx
    rcases List.mem_append.mp hx with hx | hx
    · exact hf3 x hx
    · simp only [List.mem_cons, List.not_mem_nil, or_false] at hx
      rcases hx with rfl | rfl | rfl | rfl <;> decide
  have htakeWhile : (f ++ ['3', 'D', '3', 'D']).takeWhile (fun c => c ≠ '=') =
      f ++ ['3', 'D', '3', 'D'] := by
    rw [List.takeWhile_eq_self_iff]
    intro x hx
    simpa using hnopad x hx
  rw [_decrypt]
  simp only [htake64, htake32, hdrop96, hexDecode_hexEncode hsv, hexDecode_hexEncode hiv,
    Option.some_bind]
  rw [b64decode]
  simp only [hfilterAll, htakeWhile]
  have hlenf : (f ++ ['3', 'D', '3', 'D']).length = f.length + 4 := by simp
  by_cases hmod4 : (f ++ ['3', 'D', '3', 'D']).length % 4 ≠ 0
  · rw [if_pos hmod4]
    rfl
  · rw [if_neg hmod4]
    push_neg at hmod4
    rw [Nat.sub_self, if_neg (by omega), if_neg (by simp)]
    obtain ⟨bs, hbs, hbslen⟩ := b64decodeData_total _ hmod4
    rw [hbs]
    simp only [Option.some_bind]
    rw [aesCbcDecrypt, if_pos ?hbad]
    · rfl
    case hbad =>
      rw [hbslen, hlenf]
      rw [hd22] at hf1 hf2
      omega

/-! ## Prefix dependence of the field cipher -/

/-- Both directions of the cipher read the session identifier only through
`jsessionid[:32]`. -/
theorem fieldCipher_prefix32 (p env s1 s2 : String) (salt iv : List Nat)
    (h : s1.data.take 32 = s2.data.take 32) :
    _encrypt p s1 salt iv = _encrypt p s2 salt iv ∧ _decrypt env s1 = _decrypt env s2 := by
  constructor
  · rw [_encrypt, _encrypt, encryptRaw, encryptRaw, fieldKey, fieldKey, h]
  · rw [_decrypt, _decrypt, h]

/-- On seven-bit text UTF-8 is the identity on code points. -/
theorem utf8Encode_ascii : ∀ s : List Char, (∀ c ∈ s, c.toNat < 128) →
    utf8Encode s = s.map Char.toNat := by
  intro s
  induction s with
  | nil => intro _; rfl
  | cons c tl ih =>
    intro h
    show utf8EncodeChar c ++ utf8Encode tl = c.toNat :: tl.map Char.toNat
    rw [utf8EncodeChar, utf8EncodeNat, if_pos (h c (List.mem_cons_self ..)),
      ih (fun x hx => h x (List.mem_cons_of_mem _ hx))]
    rfl

/-! ## The three-phase purchase protocol of dh_pension_720.py

Model of `DhPension720._async_buy` (lines 331 to 479) after `_ensure_session`
has succeeded.  The network boundary is an environment holding, for each
endpoint, the already-parsed payload: for the two encrypted POSTs this is the
dictionary produced by `_parse(_decrypt(resp["q"]))`, with `none` standing
for a JSON body without the key `q`.  The model also returns the list of
encrypted POSTs performed, in order. -/

/-- Whether a character is ASCII whitespace (the kinds arising here). -/
def isSpaceChar (c : Char) : Bool := c == ' ' || c == '\t' || c == '\n' || c == '\r'

/-- Python `str.strip()` for ASCII whitespace. -/
def trimChars (s : List Char) : List Char :=
  ((s.dropWhile isSpaceChar).reverse.dropWhile isSpaceChar).reverse

/-- Python `str.split(sep)` for a one-character separator. -/
def splitOnChar (sep : Char) : List Char → List (List Char)
  | [] => [[]]
  | c :: rest =>
    let r := splitOnChar sep rest
    if c == sep then [] :: r
    else
      match r with
      | h :: t => (c :: h) :: t
      | [] => [[c]]

/-- Python `sep.join(parts)` for a one-character separator. -/
def joinWithChar (sep : Char) : List (List Char) → List Char
  | [] => []
  | [x] => x
  | x :: xs => x ++ sep :: joinWithChar sep xs

/-- ASCII uppercasing of one character, as `str.upper()` acts on ASCII. -/
def charUpper (c : Char) : Char :=
  if 97 ≤ c.toNat ∧ c.toNat ≤ 122 then Char.ofNat (c.toNat - 32) else c

/-- Whether the second list is a prefix of the first. -/
def startsWithChars : List Char → List Char → Bool
  | _, [] => true
  | [], _ :: _ => false
  | a :: as, b :: bs => a == b && startsWithChars as bs

/-- Whether the second list occurs inside the first. -/
def hasSubChars : List Char → List Char → Bool
  | [], nd => nd.isEmpty
  | c :: t, nd => startsWithChars (c :: t) nd || hasSubChars t nd

/-- Value of a decimal digit. -/
def digitVal (c : Char) : Option Nat :=
  if 48 ≤ c.toNat ∧ c.toNat ≤ 57 then some (c.toNat - 48) else none

/-- Value of a non-empty all-digit string, accumulator style. -/
def digitsValAux : List Char → Nat → Option Nat
  | [], acc => some acc
  | c :: t, acc =>
    match digitVal c with
    | some d => digitsValAux t (acc * 10 + d)
    | none => none

/-- Python `dict.get(key, default)` over an association list. -/
def dget (d : List (String × String)) (k dft : String) : String :=
  match d.find? (fun kv => kv.1 == k) with
  | some kv => kv.2
  | none => dft

/-- Python `int(s)` for optionally signed decimal strings (the inputs parsed
by `_async_buy`); anything else raises `ValueError`, here `none`. -/
def pyInt (s : String) : Option Int :=
  match trimChars s.data with
  | [] => none
  | '-' :: rest =>
    if rest = [] then none else (digitsValAux rest 0).map (fun n => -(n : Int))
  | '+' :: rest =>
    if rest = [] then none else (digitsValAux rest 0).map (fun n => (n : Int))
  | t => (digitsValAux t 0).map (fun n => (n : Int))

/-- Errors of the purchase flow: `DhPension720PurchaseError` with its message,
the plain `DhPension720Error`, and an uncaught `ValueError` from `int()`. -/
inductive PensionErr
  | purchase (msg : String)
  | general (msg : String)
  | valueErr
deriving DecidableEq, Repr

/-- The result record built at the end of `_async_buy`. -/
structure DhPension720BuyData where
  round_no : Int
  ticket_count : Int
  tickets : String
  fail_count : Int
  fail_tickets : String
  deposit : Int
  amount : Int
deriving DecidableEq, Repr

/-- The parsed body of `roundRemainTime.do`; `none` models a missing key. -/
structure RoundInfo where
  round : Option Int
  remainTime : Option Int

/-- Environment of one `_async_buy` invocation. -/
structure BuyEnv where
  roundInfo : RoundInfo
  makeOrder : Option (List (String × String))
  connPro : Option (List (String × String))
  checkDeposit : Except Unit (Option (List (String × String)))

/-- Messages raised by `_async_buy`. -/
def msgNoRound : String := "회차 정보를 가져올 수 없습니다"

/-- Message of the sales-closed guard. -/
def msgSalesClosed : String := "판매 마감되었습니다"

/-- Message of a missing order number. -/
def msgNoOrderNo : String := "주문번호 생성 실패"

/-- Step 3 of `_async_buy`: the `checkDeposit.do` try block.  Any exception is
swallowed and a missing `q` key is ignored, leaving the default balance 0. -/
def checkDepositValue (r : Except Unit (Option (List (String × String)))) : Int :=
  match r with
  | .error _ => 0
  | .ok none => 0
  | .ok (some p3) =>
    match pyInt (dget p3 "deposit" "0") with
    | some v => v
    | none => 0

/-- The body of `_async_buy(groups)` after `_ensure_session`, driven by the
environment; the second component lists the encrypted POSTs issued. -/
def asyncBuy (env : BuyEnv) (groups : List Nat) :
    Except PensionErr DhPension720BuyData × List String :=
  let current_round := env.roundInfo.round.getD 0
  if current_round = 0 then (.error (.purchase msgNoRound), [])
  else
    let remain := env.roundInfo.remainTime.getD 0
    if remain ≤ 0 then (.error (.purchase msgSalesClosed), [])
    else
      match env.makeOrder with
      | none => (.error (.purchase "makeOrderNo 응답 오류"), ["makeOrderNo"])
      | some p1 =>
        let order_no := dget p1 "orderNo" ""
        if order_no = "" then (.error (.purchase msgNoOrderNo), ["makeOrderNo"])
        else
          match env.connPro with
          | none => (.error (.purchase "connPro 응답 오류"), ["makeOrderNo", "connPro"])
          | some p2 =>
            let result_code := dget p2 "resultCode" ""
            match pyInt (dget p2 "saleCnt" "0"), pyInt (dget p2 "failCnt" "0") with
            | some sale_cnt, some fail_cnt =>
              let sale_ticket := dget p2 "saleTicket" ""
              let fail_ticket := dget p2 "failTicket" ""
              if result_code = "120" then
                (.error (.purchase ("구매 전체 실패: " ++ fail_ticket)),
                  ["makeOrderNo", "connPro"])
              else if result_code ≠ "100" ∧ result_code ≠ "110" then
                (.error (.purchase ("구매 실패 (code=" ++ result_code ++ ")")),
                  ["makeOrderNo", "connPro"])
              else
                (.ok {
                  round_no := current_round
                  ticket_count := sale_cnt
                  tickets := sale_ticket
                  fail_count := fail_cnt
                  fail_tickets := fail_ticket
                  deposit := checkDepositValue env.checkDeposit
                  amount := sale_cnt * 1000 },
                  ["makeOrderNo", "connPro", "checkDeposit"])
            | _, _ => (.error .valueErr, ["makeOrderNo", "connPro"])

/-! ## The sub-service session bridge of dh_pension_720.py

Model of `DhPension720._ensure_session` (lines 137 to 281).  Responses carry
their cookies, the cookies of their redirect history and their raw
`Set-Cookie` header lines; the cookie store is the filtered lookup for the
sub-service domain plus the full iteration order.  Mirroring Python
truthiness, an absent session identifier is the empty string. -/

/-- A response as inspected by `_pick_jsessionid_from_response`. -/
structure RespModel where
  cookies : List (String × String)
  history : List (List (String × String))
  setCookieHeaders : List String

/-- Parse one raw `Set-Cookie` line: first non-empty `;`-separated part,
split at the first `=`; accept a case-insensitive `JSESSIONID` name prefix
with a non-empty value. -/
def parseSetCookieLine (line : String) : Option String :=
  let parts := ((splitOnChar (';') line.data).map trimChars).filter (fun p => p ≠ [])
  match parts with
  | [] => none
  | kv :: _ =>
    match splitOnChar ('=') kv with
    | [] => none
    | [_] => none
    | name :: rest =>
      let val := joinWithChar ('=') rest
      if startsWithChars (name.map charUpper) ("JSESSIONID".data) ∧ val ≠ [] then
        some ⟨val⟩
      else none

/-- The three extraction strategies of `_pick_jsessionid_from_response`, in
order: response cookies, redirect-history cookies, raw `Set-Cookie` lines. -/
def pickJsessionid (r : RespModel) : String :=
  match r.cookies.find? (fun kv => startsWithChars (kv.1.data.map charUpper)
      ("JSESSIONID".data)) with
  | some kv => kv.2
  | none =>
    match (r.history.flatMap (fun cs => cs)).find?
        (fun kv => startsWithChars (kv.1.data.map charUpper) ("JSESSIONID".data)) with
    | some kv => kv.2
    | none =>
      match r.setCookieHeaders.findSome? parseSetCookieLine with
      | some v => v
      | none => ""

/-- Environment of one `_ensure_session` call: the root response (`none` when
the visit raised, which is ignored), the `game.jsp` response, the filtered
cookie-store lookup and the full cookie store. -/
structure SessionEnv where
  rootResp : Option RespModel
  gameResp : RespModel
  jarFiltered : String
  jarAll : List (String × String)

/-- Message of `DhPension720Error` when every strategy failed. -/
def msgNoJsessionid : String := "JSESSIONID를 가져올 수 없습니다"

/-- The function `_ensure_session`: return the cached identifier at once;
otherwise try the root response, the game-page response, the filtered cookie
store and finally a full scan for the exact key `JSESSIONID`. -/
def ensureSession (cached : String) (env : SessionEnv) : Except String String :=
  if cached ≠ "" then .ok cached
  else
    let j0 := match env.rootResp with
      | some r => pickJsessionid r
      | none => ""
    let j1 := if j0 ≠ "" then j0 else pickJsessionid env.gameResp
    let j2 := if j1 ≠ "" then j1 else env.jarFiltered
    let j3 := if j2 ≠ "" then j2 else
      match env.jarAll.find? (fun kv => kv.1 == "JSESSIONID") with
      | some kv => kv.2
      | none => ""
    if j3 ≠ "" then .ok j3 else .error msgNoJsessionid

/-! ## The lottery client of dh_lottery_client.py

Model of the login outcome handling, the circuit-breaker accounting and
`async_get_with_login` of `DhLotteryClient`.  Timestamps are naturals; the
single `asyncio.Lock` of the client is modelled by a `lockHeld` flag, and an
attempt by the owning task to re-acquire it blocks forever (`asyncio.Lock`
is not reentrant), reported as the `blocked` outcome. -/

/-- The mutable client fields the claims mention (`__init__`, lines 80 to
107): the login flag, the consecutive-failure counter, the stored
circuit-breaker open timestamp and the lock. -/
structure ClientState where
  logged_in : Bool
  consecutive_failures : Nat
  circuit_open_time : Nat
  lockHeld : Bool
deriving DecidableEq, Repr

/-- The state right after `__init__`. -/
def initClientState : ClientState :=
  { logged_in := false, consecutive_failures := 0, circuit_open_time := 0, lockHeld := false }

/-- The stored failure threshold `_circuit_failure_threshold`. -/
def circuitFailureThreshold : Nat := 2

/-- The stored cooldown `_circuit_cooldown` in seconds. -/
def circuitCooldown : Nat := 180

/-- Modelled from the spec: the code stores `_circuit_open_time` and
`_circuit_cooldown` but never computes or exposes an open state; the spec
reads `{consecutive_failure_count, threshold, open_until_timestamp}` with the
breaker open until `open_until_timestamp` elapses, so the reported state is
`now < open_until`. -/
def circuitOpen (st : ClientState) (now : Nat) : Bool := decide (now < st.circuit_open_time)

/-- Python `needle in haystack` on strings. -/
def containsStr (hay nd : String) : Bool := hasSubChars hay.data nd.data

/-- The message of `DhLotteryLoginError` on a rejected login, with the
lockout-risk hint. -/
def loginFailMsg : String :=
  "로그인 실패: 아이디 또는 비밀번호를 확인해주세요. (5회 이상 실패 시 계정이 잠길 수 있습니다)"

/-- Handling of the login POST response (`async_login`, lines 314 to 332):
HTTP 200 or 302 with the marker `loginSuccess` in the `Location` header or
the resolved URL is a success that resets the failure counter; anything else
increments it, clears the login flag and raises `DhLotteryLoginError`. -/
def loginRespHandle (status : Nat) (location url : String) (st : ClientState) :
    ClientState × Option String :=
  if (status = 200 ∨ status = 302) ∧
      (containsStr location "loginSuccess" ∨ containsStr url "loginSuccess") then
    ({ st with logged_in := true, consecutive_failures := 0 }, none)
  else
    ({ st with logged_in := false, consecutive_failures := st.consecutive_failures + 1 },
      some loginFailMsg)

/-- One login attempt as seen by the circuit accounting: either a POST
response or a raised request exception (lines 336 to 339), which also
increments the counter and clears the flag. -/
inductive LoginEvent
  | response (status : Nat) (location url : String)
  | requestException
deriving DecidableEq

/-- State transition of one `async_login` attempt. -/
def loginStep (ev : LoginEvent) (st : ClientState) : ClientState × Option String :=
  match ev with
  | .response status location url => loginRespHandle status location url st
  | .requestException =>
    ({ st with logged_in := false, consecutive_failures := st.consecutive_failures + 1 },
      some "로그인 요청 실패")

/-- A sequence of login attempts from a starting state. -/
def runLogins (evs : List LoginEvent) (st : ClientState) : ClientState :=
  evs.foldl (fun s ev => (loginStep ev s).1) st

/-- Error kinds of the client: `DhAPIError`, `DhLotteryLoginError` and plain
`DhLotteryError`, each with its message. -/
inductive LotteryErr
  | apiErr (msg : String)
  | loginErr (msg : String)
  | lotteryErr (msg : String)
deriving DecidableEq, Repr

/-- Result of a client call in the single-task execution model: a value, a
raised error, or blocking forever on a lock the task already holds. -/
inductive CallResult (α : Type)
  | ok (a : α)
  | err (e : LotteryErr)
  | blocked
deriving DecidableEq, Repr

/-- Outcome of one raw `async_get` as classified by
`handle_response_json` / `async_get`: a payload, a `DhAPIError` (parse
failure or non-200 status), the missing-`data` `DhLotteryError`, or a wrapped
transport exception. -/
inductive ApiOutcome
  | success (data : String)
  | apiError
  | dataMissing
  | otherException
deriving DecidableEq

/-- The body of `async_login(force=True)` as called from the retry path:
the force flag skips the fast path, so the coroutine reaches
`async with self._lock`; the lock is already held by the same task, which
blocks forever.  With the lock free, one attempt runs and the response is
interpreted by `loginStep`. -/
def asyncLoginForce (st : ClientState) (ev : LoginEvent) : CallResult ClientState :=
  if st.lockHeld then .blocked
  else
    match loginStep ev { st with lockHeld := true } with
    | (st2, none) => .ok { st2 with lockHeld := false }
    | (_, some m) => .err (.loginErr m)

/-- The function `async_get_with_login(path, params, retry)` (lines 400 to
419): acquire the client lock, perform the GET, and on `DhAPIError` with
retry budget left force a relogin and recurse with `retry - 1`; with the
budget exhausted raise `DhLotteryLoginError`.  The environment lists the
outcome of each successive raw GET. -/
def getWithLogin (attempts : List ApiOutcome) (lev : LoginEvent) (retry : Nat)
    (st : ClientState) : CallResult String :=
  if st.lockHeld then .blocked
  else
    match attempts with
    | [] => .err (.lotteryErr "로그인 필요 요청 실패")
    | .success d :: _ => .ok d
    | .apiError :: rest =>
      if 0 < retry then
        match asyncLoginForce { st with lockHeld := true } lev with
        | .ok st2 => getWithLogin rest lev (retry - 1) st2
        | .blocked => .blocked
        | .err e => .err e
      else .err (.loginErr "로그인 또는 API 요청 실패")
    | .dataMissing :: _ => .err (.lotteryErr "API 응답 데이터 없음")
    | .otherException :: _ => .err (.lotteryErr "로그인 필요 요청 실패")

/-! ## The claims -/

/-- C5.  Login success detection: a login response with status 200 or 302
whose `Location` header or final resolved URL contains the marker
`loginSuccess` sets `logged_in` and resets the failure counter; a 200
response without the marker raises `DhLotteryLoginError`, whose message
carries the lockout-risk hint, and leaves `logged_in` false. -/
theorem C5_loginSuccessDetection :
    (∀ st status loc url, (status = 200 ∨ status = 302) →
      (containsStr loc "loginSuccess" = true ∨ containsStr url "loginSuccess" = true) →
      loginRespHandle status loc url st =
        ({ st with logged_in := true, consecutive_failures := 0 }, none)) ∧
    (∀ st loc url, containsStr loc "loginSuccess" = false →
      containsStr url "loginSuccess" = false →
      loginRespHandle 200 loc url st =
        ({ st with logged_in := false, consecutive_failures := st.consecutive_failures + 1 },
          some loginFailMsg)) ∧
    containsStr loginFailMsg "계정이 잠길 수 있습니다" = true := by
  refine ⟨?_, ?_, by decide⟩
  · intro st status loc url h1 h2
    rw [loginRespHandle, if_pos]
    exact ⟨h1, by simpa using h2⟩
  · intro st loc url h1 h2
    rw [loginRespHandle, if_neg]
    intro hcon
    rcases hcon.2 with hc | hc
    · rw [h1] at hc; cases hc
    · rw [h2] at hc; cases hc

/-- C5 witness: a 302 redirect to `loginSuccess` authenticates from the
initial state, and a marker-free 200 response from the same state is
rejected. -/
theorem C5_witness :
    loginRespHandle 302 "https://dhlottery.co.kr/loginSuccess.do" "" initClientState =
      ({ initClientState with logged_in := true, consecutive_failures := 0 }, none) ∧
    loginRespHandle 200 "" "https://dhlottery.co.kr/common.do" initClientState =
      ({ initClientState with
          logged_in := false
          consecutive_failures := initClientState.consecutive_failures + 1 },
        some loginFailMsg) :=
  ⟨C5_loginSuccessDetection.1 initClientState 302 _ _ (by decide) (by decide),
   C5_loginSuccessDetection.2.1 initClientState _ _ (by decide) (by decide)⟩

/-- C4.  The retry path of `async_get_with_login` is described as recovering
one API-level failure by a forced relogin and one retry; in the code the
forced `async_login` re-acquires the non-reentrant client lock already held
by the same task, so the first API-level failure with retry budget left
blocks forever instead of retrying, while an exhausted budget does raise the
login-or-API error. -/
theorem C4_retryPath_deadlock :
    getWithLogin [.apiError, .success "payload"] (.response 302 "loginSuccess" "") 1
        initClientState = .blocked ∧
    getWithLogin [.apiError] (.response 302 "loginSuccess" "") 0 initClientState =
      .err (.loginErr "로그인 또는 API 요청 실패") := by
  constructor <;> rfl

/-- C6.  Sales-closed guard: when the round-status response names a round and
its `remainTime` is missing, zero or negative, `_async_buy` raises the
sales-closed `DhPension720PurchaseError` before any encrypted request has
been built or sent (the trace of encrypted POSTs is empty). -/
theorem C6_salesClosedGuard (env : BuyEnv) (groups : List Nat)
    (hround : env.roundInfo.round.getD 0 ≠ 0)
    (hremain : env.roundInfo.remainTime.getD 0 ≤ 0) :
    asyncBuy env groups = (.error (.purchase msgSalesClosed), []) := by
  rw [asyncBuy, if_neg hround, if_pos hremain]

/-- C6 witness: a response with round 1234 and no `remainTime` key closes the
sale with no encrypted request. -/
theorem C6_witness :
    asyncBuy ⟨⟨some 1234, none⟩, none, none, .ok none⟩ [1] =
      (.error (.purchase msgSalesClosed), []) :=
  C6_salesClosedGuard _ _ (by decide) (by decide)

/-- C8.  Session-bridge fallback: a cached identifier is returned at once
with no freshness check; a root response carrying no direct cookies and no
history cookies but a raw `Set-Cookie` line that parses to an identifier
still succeeds through the header-parsing strategy; and only when the root
response, the game-page response, the filtered cookie lookup and the full
cookie-store scan all fail does `_ensure_session` raise the
session-acquisition error. -/
theorem C8_sessionBridgeFallback :
    (∀ cached env, cached ≠ "" → ensureSession cached env = .ok cached) ∧
    (∀ env r v, env.rootResp = some r → r.cookies = [] → r.history = [] →
      r.setCookieHeaders.findSome? parseSetCookieLine = some v → v ≠ "" →
      ensureSession "" env = .ok v) ∧
    (∀ env, (env.rootResp = none ∨ ∃ r, env.rootResp = some r ∧ pickJsessionid r = "") →
      pickJsessionid env.gameResp = "" → env.jarFiltered = "" →
      (∀ kv ∈ env.jarAll, kv.1 ≠ "JSESSIONID") →
      ensureSession "" env = .error msgNoJsessionid) := by
  refine ⟨?_, ?_, ?_⟩
  · intro cached env h
    rw [ensureSession, if_pos h]
  · intro env r v hroot hc hh hhdr hv
    have hpick : pickJsessionid r = v := by
      rw [pickJsessionid, hc, hh]
      simp only [List.find?_nil, List.flatMap_nil, hhdr]
    rw [ensureSession, if_neg (by simp), hroot]
    simp only [hpick, if_pos hv]
  · intro env hroot hgame hjar hall
    have hfind : env.jarAll.find? (fun kv => kv.1 == "JSESSIONID") = none := by
      rw [List.find?_eq_none]
      intro kv hkv
      simpa using hall kv hkv
    rw [ensureSession, if_neg (by simp)]
    rcases hroot with hroot | ⟨r, hroot, hpick⟩
    · rw [hroot]
      simp only [hgame, hjar, hfind]
      rfl
    · rw [hroot]
      simp only [hpick, hgame, hjar, hfind]
      rfl

/-- C8 witness: the three behaviors at concrete environments, the second with
cookies delivered only through a raw `Set-Cookie` header line. -/
theorem C8_witness :
    ensureSession "cached0" ⟨none, ⟨[], [], []⟩, "", []⟩ = .ok "cached0" ∧
    ensureSession "" ⟨some ⟨[], [], ["JSESSIONID=ABC123; Path=/; Secure; HttpOnly"]⟩,
      ⟨[], [], []⟩, "", []⟩ = .ok "ABC123" ∧
    ensureSession "" ⟨none, ⟨[], [], []⟩, "", [("OTHER", "x")]⟩ =
      .error msgNoJsessionid :=
  ⟨C8_sessionBridgeFallback.1 _ _ (by decide),
   C8_sessionBridgeFallback.2.1 _ ⟨[], [], ["JSESSIONID=ABC123; Path=/; Secure; HttpOnly"]⟩
     "ABC123" rfl rfl rfl (by decide) (by decide),
   C8_sessionBridgeFallback.2.2 _ (Or.inl rfl) (by decide) rfl (by decide)⟩

/-- Helper: no login transition touches the stored breaker timestamp. -/
theorem loginStep_open_time (ev : LoginEvent) (st : ClientState) :
    ((loginStep ev st).1).circuit_open_time = st.circuit_open_time := by
  cases ev with
  | response status loc url =>
    rw [loginStep, loginRespHandle]
    split <;> rfl
  | requestException => rfl

/-- C3 counterexample: after exactly two consecutive login failures
(the stored threshold) the failure counter reaches 2, yet ten seconds later
the breaker still does not report open, although the 180-second cooldown has
not elapsed. -/
theorem C3_counterexample :
    (runLogins [.response 200 "" "", .response 200 "" ""] initClientState).consecutive_failures =
      circuitFailureThreshold ∧
    circuitOpen (runLogins [.response 200 "" "", .response 200 "" ""] initClientState) 10 =
      false ∧
    (10 : Nat) < circuitCooldown := by
  refine ⟨?_, ?_, by decide⟩ <;> rfl

/-- C3 amended.  Circuit accounting: every failed login attempt (rejected
response or raised request) increments `consecutive_failures` and a
successful login resets it to 0; but the breaker never opens: the threshold
and cooldown are stored yet no transition writes `circuit_open_time`, so
after any sequence of login attempts the stored timestamp is still 0 and the
breaker state reports closed at every instant. -/
theorem C3_circuitAccounting_amended :
    (∀ st ev, (loginStep ev st).2 ≠ none →
      ((loginStep ev st).1).consecutive_failures = st.consecutive_failures + 1 ∧
        ((loginStep ev st).1).logged_in = false) ∧
    (∀ st ev, (loginStep ev st).2 = none →
      ((loginStep ev st).1).consecutive_failures = 0 ∧ ((loginStep ev st).1).logged_in = true) ∧
    (∀ evs, (runLogins evs initClientState).circuit_open_time = 0) ∧
    (∀ evs now, circuitOpen (runLogins evs initClientState) now = false) := by
  have hopen : ∀ evs st, (runLogins evs st).circuit_open_time = st.circuit_open_time := by
    intro evs
    induction evs with
    | nil => intro st; rfl
    | cons ev tl ih =>
      intro st
      show (runLogins tl ((loginStep ev st).1)).circuit_open_time = _
      rw [ih, loginStep_open_time]
  refine ⟨?_, ?_, ?_, ?_⟩
  · intro st ev h
    cases ev with
    | response status loc url =>
      rw [loginStep, loginRespHandle] at h ⊢
      by_cases hc : (status = 200 ∨ status = 302) ∧
        (containsStr loc "loginSuccess" = true ∨ containsStr url "loginSuccess" = true)
      · rw [if_pos hc] at h
        exact absurd rfl h
      · rw [if_neg hc]
        exact ⟨rfl, rfl⟩
    | requestException => exact ⟨rfl, rfl⟩
  · intro st ev h
    cases ev with
    | response status loc url =>
      rw [loginStep, loginRespHandle] at h ⊢
      by_cases hc : (status = 200 ∨ status = 302) ∧
        (containsStr loc "loginSuccess" = true ∨ containsStr url "loginSuccess" = true)
      · rw [if_pos hc]
        exact ⟨rfl, rfl⟩
      · rw [if_neg hc] at h
        cases h
    | requestException => cases h
  · intro evs
    rw [hopen]
    rfl
  · intro evs now
    rw [circuitOpen, hopen]
    simp [initClientState]

/-- C3 witness: a failure increments from the initial state, a success resets
a dirty state, the stored timestamp is 0 after two failures, and the breaker
reports closed then. -/
theorem C3_witness :
    ((loginStep (.response 200 "" "") initClientState).1).consecutive_failures =
        initClientState.consecutive_failures + 1 ∧
    ((loginStep (.response 302 "x/loginSuccess" "")
        { initClientState with consecutive_failures := 5 }).1).consecutive_failures = 0 ∧
    (runLogins [.requestException, .requestException] initClientState).circuit_open_time = 0 ∧
    circuitOpen (runLogins [.requestException, .requestException] initClientState) 999 =
      false :=
  ⟨(C3_circuitAccounting_amended.1 initClientState _ (by decide)).1,
   (C3_circuitAccounting_amended.2.1 _ _ (by decide)).1,
   C3_circuitAccounting_amended.2.2.1 _,
   C3_circuitAccounting_amended.2.2.2 _ 999⟩

/-- C2 counterexample: a phase-2 response with result code `100` that
declares `failCnt=1` yields an outcome whose failed count is 1, not 0 —
`_async_buy` copies the declared count for code `100` just as for `110`. -/
theorem C2_counterexample :
    (asyncBuy ⟨⟨some 1234, some 500⟩, some [("orderNo", "A1")],
      some [("resultCode", "100"), ("saleCnt", "1"), ("saleTicket", "T1"), ("failCnt", "1")],
      .ok none⟩ [1]).1 =
      .ok ⟨1234, 1, "T1", 1, "", 0, 1000⟩ := by
  rfl

/-- C2 amended.  Purchase result-code mapping for a well-formed phase-2
response: code `120` raises the total-failure `DhPension720PurchaseError`
carrying the failed-ticket descriptor; any code other than `100`, `110` and
`120` raises the unrecognized-code error; code `110` raises nothing and the
outcome copies the declared failed count and descriptor; code `100` likewise
copies the declared failed count (which is 0 exactly when the response
declares 0), rather than forcing it to 0. -/
theorem C2_resultCodeMapping_amended (env : BuyEnv) (groups : List Nat)
    (p1 p2 : List (String × String)) (sc fc : Int)
    (hround : env.roundInfo.round.getD 0 ≠ 0)
    (hremain : 0 < env.roundInfo.remainTime.getD 0)
    (hmk : env.makeOrder = some p1) (hord : dget p1 "orderNo" "" ≠ "")
    (hcp : env.connPro = some p2)
    (hsc : pyInt (dget p2 "saleCnt" "0") = some sc)
    (hfc : pyInt (dget p2 "failCnt" "0") = some fc) :
    (dget p2 "resultCode" "" = "120" →
      (asyncBuy env groups).1 =
        .error (.purchase ("구매 전체 실패: " ++ dget p2 "failTicket" ""))) ∧
    (dget p2 "resultCode" "" ≠ "100" → dget p2 "resultCode" "" ≠ "110" →
      dget p2 "resultCode" "" ≠ "120" →
      (asyncBuy env groups).1 =
        .error (.purchase ("구매 실패 (code=" ++ dget p2 "resultCode" "" ++ ")"))) ∧
    (dget p2 "resultCode" "" = "110" →
      (asyncBuy env groups).1 =
        .ok ⟨env.roundInfo.round.getD 0, sc, dget p2 "saleTicket" "", fc,
          dget p2 "failTicket" "", checkDepositValue env.checkDeposit, sc * 1000⟩) ∧
    (dget p2 "resultCode" "" = "100" →
      (asyncBuy env groups).1 =
        .ok ⟨env.roundInfo.round.getD 0, sc, dget p2 "saleTicket" "", fc,
          dget p2 "failTicket" "", checkDepositValue env.checkDeposit, sc * 1000⟩) := by
  have hnr : ¬(env.roundInfo.remainTime.getD 0 ≤ 0) := by omega
  refine ⟨?_, ?_, ?_, ?_⟩
  · intro hcode
    simp only [asyncBuy, hmk, hcp, hsc, hfc, if_neg hround, if_neg hnr, if_neg hord, hcode]
    rfl
  · intro h100 h110 h120
    simp only [asyncBuy, hmk, hcp, hsc, hfc, if_neg hround, if_neg hnr, if_neg hord,
      if_neg h120, if_pos (And.intro h100 h110)]
  · intro hcode
    simp only [asyncBuy, hmk, hcp, hsc, hfc, if_neg hround, if_neg hnr, if_neg hord, hcode]
    rfl
  · intro hcode
    simp only [asyncBuy, hmk, hcp, hsc, hfc, if_neg hround, if_neg hnr, if_neg hord, hcode]
    rfl

/-- C2 witness: the four amended behaviors at concrete responses. -/
theorem C2_witness :
    (asyncBuy ⟨⟨some 7, some 9⟩, some [("orderNo", "A1")],
        some [("resultCode", "120"), ("failTicket", "T9")], .ok none⟩ [1]).1 =
      .error (.purchase ("구매 전체 실패: " ++ "T9")) ∧
    (asyncBuy ⟨⟨some 7, some 9⟩, some [("orderNo", "A1")],
        some [("resultCode", "999")], .ok none⟩ [1]).1 =
      .error (.purchase ("구매 실패 (code=" ++ "999" ++ ")")) ∧
    (asyncBuy ⟨⟨some 7, some 9⟩, some [("orderNo", "A1")],
        some [("resultCode", "110"), ("saleCnt", "3"), ("failCnt", "2"),
          ("failTicket", "T4,T5")], .ok none⟩ [1]).1 =
      .ok ⟨7, 3, "", 2, "T4,T5", 0, 3000⟩ ∧
    (asyncBuy ⟨⟨some 7, some 9⟩, some [("orderNo", "A1")],
        some [("resultCode", "100"), ("saleCnt", "1"), ("saleTicket", "T1"),
          ("failCnt", "0")], .ok none⟩ [1]).1 =
      .ok ⟨7, 1, "T1", 0, "", 0, 1000⟩ := by
  refine ⟨?_, ?_, ?_, ?_⟩
  · exact (C2_resultCodeMapping_amended
      ⟨⟨some 7, some 9⟩, some [("orderNo", "A1")],
        some [("resultCode", "120"), ("failTicket", "T9")], .ok none⟩ [1]
      [("orderNo", "A1")] [("resultCode", "120"), ("failTicket", "T9")] 0 0
      (by decide) (by decide) rfl (by decide) rfl (by decide) (by decide)).1 (by decide)
  · exact (C2_resultCodeMapping_amended
      ⟨⟨some 7, some 9⟩, some [("orderNo", "A1")], some [("resultCode", "999")], .ok none⟩ [1]
      [("orderNo", "A1")] [("resultCode", "999")] 0 0
      (by decide) (by decide) rfl (by decide) rfl (by decide) (by decide)).2.1
      (by decide) (by decide) (by decide)
  · exact (C2_resultCodeMapping_amended
      ⟨⟨some 7, some 9⟩, some [("orderNo", "A1")],
        some [("resultCode", "110"), ("saleCnt", "3"), ("failCnt", "2"),
          ("failTicket", "T4,T5")], .ok none⟩ [1]
      [("orderNo", "A1")]
      [("resultCode", "110"), ("saleCnt", "3"), ("failCnt", "2"), ("failTicket", "T4,T5")] 3 2
      (by decide) (by decide) rfl (by decide) rfl (by decide) (by decide)).2.2.1 (by decide)
  · exact (C2_resultCodeMapping_amended
      ⟨⟨some 7, some 9⟩, some [("orderNo", "A1")],
        some [("resultCode", "100"), ("saleCnt", "1"), ("saleTicket", "T1"),
          ("failCnt", "0")], .ok none⟩ [1]
      [("orderNo", "A1")]
      [("resultCode", "100"), ("saleCnt", "1"), ("saleTicket", "T1"), ("failCnt", "0")] 1 0
      (by decide) (by decide) rfl (by decide) rfl (by decide) (by decide)).2.2.2 (by decide)

/-- C7: Phase-3 best-effort semantics.  Whenever phase 2 of `_async_buy`
succeeds, the outcome's amount equals the sold count times the fixed unit
price 1000; the phase-3 `checkDeposit.do` outcome never affects success —
for any phase-3 result `r` (including a raised exception, `.error ()`) the
purchase still succeeds and only the deposit field changes — and a failing
or `q`-less phase-3 response leaves the default balance 0. -/
theorem C7_phase3BestEffort (env : BuyEnv) (groups : List Nat)
    (d : DhPension720BuyData) (h : (asyncBuy env groups).1 = .ok d) :
    d.amount = d.ticket_count * 1000 ∧
    (∀ r : Except Unit (Option (List (String × String))),
      (asyncBuy { env with checkDeposit := r } groups).1 =
        .ok { d with deposit := checkDepositValue r }) ∧
    checkDepositValue (.error ()) = 0 ∧
    checkDepositValue (.ok none) = 0 := by
  by_cases hr : env.roundInfo.round.getD 0 = 0
  · simp [asyncBuy, hr] at h
  · by_cases hrem : env.roundInfo.remainTime.getD 0 ≤ 0
    · simp [asyncBuy, hr, hrem] at h
    · cases hm : env.makeOrder with
      | none => simp [asyncBuy, hr, hrem, hm] at h
      | some p1 =>
        by_cases ho : dget p1 "orderNo" "" = ""
        · simp [asyncBuy, hr, hrem, hm, ho] at h
        · cases hc : env.connPro with
          | none => simp [asyncBuy, hr, hrem, hm, ho, hc] at h
          | some p2 =>
            cases hs : pyInt (dget p2 "saleCnt" "0") with
            | none => simp [asyncBuy, hr, hrem, hm, ho, hc, hs] at h
            | some sc =>
              cases hf : pyInt (dget p2 "failCnt" "0") with
              | none => simp [asyncBuy, hr, hrem, hm, ho, hc, hs, hf] at h
              | some fc =>
                by_cases h120 : dget p2 "resultCode" "" = "120"
                · simp [asyncBuy, hr, hrem, hm, ho, hc, hs, hf, h120] at h
                · by_cases hbad : dget p2 "resultCode" "" ≠ "100" ∧
                      dget p2 "resultCode" "" ≠ "110"
                  · simp [asyncBuy, hr, hrem, hm, ho, hc, hs, hf, h120, hbad] at h
                  · have key0 : (asyncBuy env groups).1 =
                        .ok ⟨env.roundInfo.round.getD 0, sc, dget p2 "saleTicket" "", fc,
                          dget p2 "failTicket" "", checkDepositValue env.checkDeposit,
                          sc * 1000⟩ := by
                      simp only [asyncBuy, hm, hc, hs, hf, if_neg hr, if_neg hrem,
                        if_neg ho, if_neg h120, if_neg hbad]
                    rw [key0] at h
                    injection h with h
                    subst h
                    refine ⟨rfl, ?_, rfl, rfl⟩
                    intro r
                    simp only [asyncBuy, hm, hc, hs, hf, if_neg hr, if_neg hrem,
                      if_neg ho, if_neg h120, if_neg hbad]

/-- C7 witness: a concrete phase-2 success with `saleCnt=2`; the amount is
2 × 1000, and replacing the phase-3 result by a raised exception only zeroes
the deposit. -/
theorem C7_witness :
    (asyncBuy ⟨⟨some 7, some 9⟩, some [("orderNo", "A1")],
        some [("resultCode", "100"), ("saleCnt", "2"), ("saleTicket", "T1,T2"),
          ("failCnt", "0")],
        .ok (some [("deposit", "5000")])⟩ [1]).1 =
      .ok ⟨7, 2, "T1,T2", 0, "", 5000, 2000⟩ ∧
    (2000 : Int) = 2 * 1000 ∧
    (asyncBuy ⟨⟨some 7, some 9⟩, some [("orderNo", "A1")],
        some [("resultCode", "100"), ("saleCnt", "2"), ("saleTicket", "T1,T2"),
          ("failCnt", "0")],
        .error ()⟩ [1]).1 =
      .ok ⟨7, 2, "T1,T2", 0, "", 0, 2000⟩ := by
  have h0 : (asyncBuy ⟨⟨some 7, some 9⟩, some [("orderNo", "A1")],
      some [("resultCode", "100"), ("saleCnt", "2"), ("saleTicket", "T1,T2"),
        ("failCnt", "0")],
      .ok (some [("deposit", "5000")])⟩ [1]).1 =
      .ok ⟨7, 2, "T1,T2", 0, "", 5000, 2000⟩ := rfl
  have h := C7_phase3BestEffort _ [1] ⟨7, 2, "T1,T2", 0, "", 5000, 2000⟩ h0
  exact ⟨h0, h.1, h.2.1 (.error ())⟩

/-- C1 counterexample: with a 32-character session identifier, a fresh zero
salt and IV, and the empty plaintext, `_decrypt(_encrypt(p, s), s)` fails:
the `quote(...)` inside `_encrypt` percent-encodes the base64 padding `==`
into `%3D%3D`, which `_decrypt` never undoes, so the round trip of the claim
does not hold. -/
theorem C1_counterexample :
    _decrypt (_encrypt "" ⟨List.replicate 32 'a'⟩
        (List.replicate 32 0) (List.replicate 16 0))
      ⟨List.replicate 32 'a'⟩ = none :=
  decrypt_encrypt_oneBlock_fails "" ⟨List.replicate 32 'a'⟩
    (by decide) (by decide) (by decide) (by decide) (by decide)

/-- C1 amended.  The round trip holds one percent-encoding earlier: for every
session identifier and plaintext, decrypting the envelope `_encrypt` builds
BEFORE its final `quote(...)` step (`salt.hex() + iv.hex() +
base64(ciphertext)`, the value the server sees after the URL layer unquotes
it) with the same session identifier restores the plaintext. -/
theorem C1_roundTrip_amended (plaintext jsessionid : String) (salt iv : List Nat)
    (hsl : salt.length = 32) (hsv : ValidBytes salt)
    (hil : iv.length = 16) (hiv : ValidBytes iv) :
    _decrypt ⟨encryptRaw plaintext jsessionid salt iv⟩ jsessionid = some plaintext :=
  decrypt_encryptRaw plaintext jsessionid hsl hsv hil hiv

/-- C1 witness: the amended round trip at a concrete plaintext, session
identifier, salt and IV. -/
theorem C1_witness :
    _decrypt ⟨encryptRaw "hi" ⟨List.replicate 32 'a'⟩
        (List.replicate 32 0) (List.replicate 16 0)⟩
      ⟨List.replicate 32 'a'⟩ = some "hi" :=
  C1_roundTrip_amended "hi" ⟨List.replicate 32 'a'⟩
    (List.replicate 32 0) (List.replicate 16 0)
    (by decide) (by decide) (by decide) (by decide)

/-- C9: envelope format of `_encrypt`.  For a session identifier of seven-bit
text (where its first 32 characters and first 32 UTF-8 bytes agree) the
output is `hex(salt) || hex(iv) || base64(AES-CBC(PKCS7(plaintext)))`
percent-encoded as one value, with the key derived by PBKDF2-HMAC-SHA256,
1000 iterations, 16-byte output, from the first 32 bytes of the session
identifier and the salt; a 32-byte salt and 16-byte IV make the two hex runs
64 and 32 characters. -/
theorem C9_envelopeFormat (plaintext jsessionid : String) (salt iv : List Nat)
    (hsl : salt.length = 32) (hil : iv.length = 16)
    (hascii : ∀ c ∈ jsessionid.data, c.toNat < 128) :
    _encrypt plaintext jsessionid salt iv =
      ⟨pyQuote (hexEncode salt ++ hexEncode iv ++
        b64encode (aesCbcEncrypt
          (pbkdf2Sha256 ((utf8Encode jsessionid.data).take 32) salt 1000 16) iv
          (pkcs7pad (utf8Encode plaintext.data))))⟩ ∧
    (hexEncode salt).length = 64 ∧
    (hexEncode iv).length = 32 ∧
    (pbkdf2Sha256 ((utf8Encode jsessionid.data).take 32) salt 1000 16).length = 16 := by
  have hk : utf8Encode (jsessionid.data.take 32) =
      (utf8Encode jsessionid.data).take 32 := by
    rw [utf8Encode_ascii _ (fun c hc => hascii c (List.mem_of_mem_take hc)),
      utf8Encode_ascii _ hascii, List.map_take]
  refine ⟨?_, ?_, ?_, pbkdf2Sha256_length _ _ _ (by omega)⟩
  · rw [_encrypt, encryptRaw, fieldKey, hk]
  · rw [hexEncode_length, hsl]
  · rw [hexEncode_length, hil]

/-- C9 witness: the envelope format at a concrete plaintext, seven-bit
session identifier, salt and IV. -/
theorem C9_witness :
    _encrypt "hi" ⟨List.replicate 32 'a'⟩ (List.replicate 32 0) (List.replicate 16 0) =
      ⟨pyQuote (hexEncode (List.replicate 32 0) ++ hexEncode (List.replicate 16 0) ++
        b64encode (aesCbcEncrypt
          (pbkdf2Sha256 ((utf8Encode (List.replicate 32 'a')).take 32)
            (List.replicate 32 0) 1000 16) (List.replicate 16 0)
          (pkcs7pad (utf8Encode ("hi" : String).data))))⟩ ∧
    (hexEncode (List.replicate 32 (0 : Nat))).length = 64 ∧
    (hexEncode (List.replicate 16 (0 : Nat))).length = 32 ∧
    (pbkdf2Sha256 ((utf8Encode (List.replicate 32 'a')).take 32)
      (List.replicate 32 0) 1000 16).length = 16 :=
  C9_envelopeFormat "hi" ⟨List.replicate 32 'a'⟩
    (List.replicate 32 0) (List.replicate 16 0)
    (by decide) (by decide) (by decide)

/-- C10: the field cipher reads the session identifier only through its first
32 characters.  If `s1` and `s2` agree on those, `_encrypt` and `_decrypt`
under `s1` and `s2` coincide on every input; in particular a ciphertext
produced under `s1` decrypts identically under `s2`. -/
theorem C10_prefixDependence (p env s1 s2 : String) (salt iv : List Nat)
    (h : s1.data.take 32 = s2.data.take 32) :
    _encrypt p s1 salt iv = _encrypt p s2 salt iv ∧
    _decrypt env s1 = _decrypt env s2 ∧
    _decrypt (_encrypt p s1 salt iv) s2 = _decrypt (_encrypt p s1 salt iv) s1 := by
  obtain ⟨he, hd⟩ := fieldCipher_prefix32 p env s1 s2 salt iv h
  exact ⟨he, hd, (fieldCipher_prefix32 p (_encrypt p s1 salt iv) s1 s2 salt iv h).2.symm⟩

/-- C10 witness: two session identifiers sharing their first 32 characters
but differing afterwards give the same cipher on a concrete input. -/
theorem C10_witness :
    _encrypt "hi" ⟨List.replicate 32 'a' ++ ['X']⟩ (List.replicate 32 0)
        (List.replicate 16 0) =
      _encrypt "hi" ⟨List.replicate 32 'a' ++ ['Y', 'Z']⟩ (List.replicate 32 0)
        (List.replicate 16 0) ∧
    _decrypt "ff" ⟨List.replicate 32 'a' ++ ['X']⟩ =
      _decrypt "ff" ⟨List.replicate 32 'a' ++ ['Y', 'Z']⟩ ∧
    _decrypt (_encrypt "hi" ⟨List.replicate 32 'a' ++ ['X']⟩ (List.replicate 32 0)
        (List.replicate 16 0)) ⟨List.replicate 32 'a' ++ ['Y', 'Z']⟩ =
      _decrypt (_encrypt "hi" ⟨List.replicate 32 'a' ++ ['X']⟩ (List.replicate 32 0)
        (List.replicate 16 0)) ⟨List.replicate 32 'a' ++ ['X']⟩ :=
  C10_prefixDependence "hi" "ff" ⟨List.replicate 32 'a' ++ ['X']⟩
    ⟨List.replicate 32 'a' ++ ['Y', 'Z']⟩ (List.replicate 32 0) (List.replicate 16 0)
    (by decide)
